import Mathlib

/-!
Verification development for the data-plane filter engine and table layer of
the engageLively data-plane-server repository.  The definitions below are a
shallow embedding of src/dataplane/data_plane_table.py (the authoritative
copy cited by the claims) together with the conversion helpers of
src/dataplane/data_plane_utils.py.

Modelling conventions:
  - Python scalar values are the inductive PyValue.  Python ints are
    modelled as integers and Python floats as rationals: every float value
    is a (dyadic) rational, and the code only compares floats, zero-tests
    them and renders them, on all of which the rational model is exact; no
    floating-point rounding of arithmetic is modelled because the code
    performs no float arithmetic.
  - Python date, datetime and time objects are records of naturals at
    second granularity.  Comparison of date-family values is modelled by a
    strictly monotone key encoding, which agrees with the componentwise
    lexicographic comparison used by Python on all values Python can
    actually construct (months below 16, days below 32, hours below 32,
    minutes and seconds below 64).
  - Functions that can raise return Except CheckErr; InvalidDataException
    is CheckErr.invalidData, while exceptions that escape the code uncaught
    (TypeError, re.error, AttributeError) are CheckErr.pyExc.
  - datetime.date.fromisoformat / datetime.time.fromisoformat /
    datetime.datetime.fromisoformat and the corresponding isoformat
    rendering are modelled on their canonical grammars (YYYY-MM-DD,
    HH:MM[:SS] and the combination with an arbitrary one-character
    separator, as accepted by the Python version this code targets).
  - re.compile is modelled by a recursive-descent parser for the core
    regular-expression grammar (literals, escapes, dot, grouping,
    alternation and the three quantifiers); re.fullmatch is modelled by
    Brzozowski-derivative matching of the whole string.
-/

namespace DataPlane

/-- Exceptions other than InvalidDataException that the Python code can let
escape: TypeError, re.error and AttributeError. -/
inductive PyExcKind where
  | typeError
  | reError
  | attributeError
deriving DecidableEq, Repr

/-- Error outcome of an embedded operation: either the InvalidDataException
raised deliberately by the code (with its message) or an uncaught Python
exception. -/
inductive CheckErr where
  | invalidData (msg : String)
  | pyExc (k : PyExcKind)
deriving DecidableEq, Repr

/-- Decidable equality of Except outcomes, used to evaluate the embedded
operations on concrete inputs. -/
instance {ε α : Type} [DecidableEq ε] [DecidableEq α] : DecidableEq (Except ε α) := fun a b =>
  match a, b with
  | .ok x, .ok y => if h : x = y then .isTrue (by rw [h]) else .isFalse (by simp [h])
  | .error e, .error f => if h : e = f then .isTrue (by rw [h]) else .isFalse (by simp [h])
  | .ok _, .error _ => .isFalse (by simp)
  | .error _, .ok _ => .isFalse (by simp)

/-- The six data plane schema types of data_plane_utils.py. -/
inductive DPType where
  | string
  | number
  | boolean
  | date
  | datetime
  | timeofday
deriving DecidableEq, Repr

/-- Model of a Python datetime.date value. -/
structure DateV where
  year : Nat
  month : Nat
  day : Nat
deriving DecidableEq, Repr

/-- Model of a Python datetime.time value (second granularity). -/
structure TimeV where
  hour : Nat
  minute : Nat
  second : Nat
deriving DecidableEq, Repr

/-- Model of a Python datetime.datetime value (second granularity). -/
structure DateTimeV where
  year : Nat
  month : Nat
  day : Nat
  hour : Nat
  minute : Nat
  second : Nat
deriving DecidableEq, Repr

/-- Model of the Python scalar values the data plane manipulates. -/
inductive PyValue where
  | pstr (s : String)
  | pint (n : Int)
  | pfloat (q : Rat)
  | pbool (b : Bool)
  | pdate (d : DateV)
  | pdatetime (dt : DateTimeV)
  | ptime (t : TimeV)
  | pnone
deriving DecidableEq, Repr

/-- Gregorian leap-year test, as used by datetime. -/
def isLeap (y : Nat) : Bool :=
  (y % 4 == 0 && y % 100 != 0) || y % 400 == 0

/-- Days in a month of the proleptic Gregorian calendar. -/
def daysInMonth (y m : Nat) : Nat :=
  if m == 2 then (if isLeap y then 29 else 28)
  else if m == 4 || m == 6 || m == 9 || m == 11 then 30
  else 31

/-- Validity of a DateV, matching the invariant of Python date objects
(MINYEAR = 1, MAXYEAR = 9999). -/
def validDate (d : DateV) : Bool :=
  decide (1 ≤ d.year ∧ d.year ≤ 9999 ∧ 1 ≤ d.month ∧ d.month ≤ 12 ∧
          1 ≤ d.day ∧ d.day ≤ daysInMonth d.year d.month)

/-- Validity of a TimeV, matching the invariant of Python time objects. -/
def validTime (t : TimeV) : Bool :=
  decide (t.hour ≤ 23 ∧ t.minute ≤ 59 ∧ t.second ≤ 59)

/-- Validity of a DateTimeV. -/
def validDateTime (dt : DateTimeV) : Bool :=
  validDate ⟨dt.year, dt.month, dt.day⟩ && validTime ⟨dt.hour, dt.minute, dt.second⟩

/-- Strictly monotone key for date comparison (valid months are below 16
and valid days below 32, so this agrees with lexicographic comparison on
all Python-representable dates). -/
def dateKey (d : DateV) : Nat :=
  (d.year * 16 + d.month) * 32 + d.day

/-- Strictly monotone key for time comparison. -/
def timeKey (t : TimeV) : Nat :=
  (t.hour * 64 + t.minute) * 64 + t.second

/-- Strictly monotone key for datetime comparison. -/
def dtKey (dt : DateTimeV) : Nat :=
  ((((dt.year * 16 + dt.month) * 32 + dt.day) * 32 + dt.hour) * 64 + dt.minute) * 64 + dt.second

/-- Character for a decimal digit. -/
def digitChar (n : Nat) : Char := Char.ofNat (48 + n)

/-- Decimal value of a digit character, none for a non-digit. -/
def digitVal (c : Char) : Option Nat :=
  if 48 ≤ c.toNat ∧ c.toNat ≤ 57 then some (c.toNat - 48) else none

/-- Two-digit zero-padded rendering of a natural below 100. -/
def d2chars (n : Nat) : List Char := [digitChar (n / 10 % 10), digitChar (n % 10)]

/-- Four-digit zero-padded rendering of a natural below 10000. -/
def d4chars (n : Nat) : List Char :=
  [digitChar (n / 1000 % 10), digitChar (n / 100 % 10), digitChar (n / 10 % 10), digitChar (n % 10)]

/-- Character form of date.isoformat(), which is also str(date). -/
def isoDateChars (d : DateV) : List Char :=
  d4chars d.year ++ '-' :: (d2chars d.month ++ '-' :: d2chars d.day)

/-- Model of date.isoformat(). -/
def isoDate (d : DateV) : String := String.mk (isoDateChars d)

/-- Character form of time.isoformat() at second granularity. -/
def isoTimeChars (t : TimeV) : List Char :=
  d2chars t.hour ++ ':' :: (d2chars t.minute ++ ':' :: d2chars t.second)

/-- Model of time.isoformat(). -/
def isoTime (t : TimeV) : String := String.mk (isoTimeChars t)

/-- Model of datetime.isoformat(), which uses the T separator. -/
def isoDateTime (dt : DateTimeV) : String :=
  String.mk (isoDateChars ⟨dt.year, dt.month, dt.day⟩ ++
             'T' :: isoTimeChars ⟨dt.hour, dt.minute, dt.second⟩)

/-- Model of str(datetime), which uses a space separator. -/
def strDateTime (dt : DateTimeV) : String :=
  String.mk (isoDateChars ⟨dt.year, dt.month, dt.day⟩ ++
             ' ' :: isoTimeChars ⟨dt.hour, dt.minute, dt.second⟩)

/-- Model of datetime.date.fromisoformat on a character list: exactly the
YYYY-MM-DD grammar with range checks, as in Python. -/
def parseDateChars : List Char → Option DateV
  | [y1, y2, y3, y4, s1, m1, m2, s2, e1, e2] =>
    if s1 = '-' ∧ s2 = '-' then
      match digitVal y1, digitVal y2, digitVal y3, digitVal y4,
            digitVal m1, digitVal m2, digitVal e1, digitVal e2 with
      | some a, some b, some c, some d, some e, some f, some g, some h =>
        let y := 1000 * a + 100 * b + 10 * c + d
        let mo := 10 * e + f
        let dd := 10 * g + h
        if 1 ≤ y ∧ y ≤ 9999 ∧ 1 ≤ mo ∧ mo ≤ 12 ∧ 1 ≤ dd ∧ dd ≤ daysInMonth y mo then
          some ⟨y, mo, dd⟩
        else none
      | _, _, _, _, _, _, _, _ => none
    else none
  | _ => none

/-- Model of datetime.time.fromisoformat on a character list: the HH:MM:SS
and HH:MM grammars with range checks. -/
def parseTimeChars : List Char → Option TimeV
  | [h1, h2, c1, m1, m2, c2, s1, s2] =>
    if c1 = ':' ∧ c2 = ':' then
      match digitVal h1, digitVal h2, digitVal m1, digitVal m2, digitVal s1, digitVal s2 with
      | some a, some b, some c, some d, some e, some f =>
        let hh := 10 * a + b
        let mm := 10 * c + d
        let ss := 10 * e + f
        if hh ≤ 23 ∧ mm ≤ 59 ∧ ss ≤ 59 then some ⟨hh, mm, ss⟩ else none
      | _, _, _, _, _, _ => none
    else none
  | [h1, h2, c1, m1, m2] =>
    if c1 = ':' then
      match digitVal h1, digitVal h2, digitVal m1, digitVal m2 with
      | some a, some b, some c, some d =>
        let hh := 10 * a + b
        let mm := 10 * c + d
        if hh ≤ 23 ∧ mm ≤ 59 then some ⟨hh, mm, 0⟩ else none
      | _, _, _, _ => none
    else none
  | _ => none

/-- Model of datetime.datetime.fromisoformat on a character list: a date,
optionally followed by a one-character separator and a time part. -/
def parseDateTimeChars : List Char → Option DateTimeV
  | y1 :: y2 :: y3 :: y4 :: s1 :: m1 :: m2 :: s2 :: e1 :: e2 :: sep :: rest =>
    match parseDateChars [y1, y2, y3, y4, s1, m1, m2, s2, e1, e2], parseTimeChars rest with
    | some d, some t =>
      let _ := sep
      some ⟨d.year, d.month, d.day, t.hour, t.minute, t.second⟩
    | _, _ => none
  | cs =>
    match parseDateChars cs with
    | some d => some ⟨d.year, d.month, d.day, 0, 0, 0⟩
    | none => none

/-- String-level model of date.fromisoformat. -/
def parseIsoDate (s : String) : Option DateV := parseDateChars s.data

/-- String-level model of time.fromisoformat. -/
def parseIsoTime (s : String) : Option TimeV := parseTimeChars s.data

/-- String-level model of datetime.fromisoformat. -/
def parseIsoDateTime (s : String) : Option DateTimeV := parseDateTimeChars s.data

/-- Lexicographic order on character lists by code point, as Python string
comparison behaves. -/
def listCharLe : List Char → List Char → Bool
  | [], _ => true
  | _ :: _, [] => false
  | a :: as, b :: bs =>
    if a.toNat < b.toNat then true
    else if b.toNat < a.toNat then false
    else listCharLe as bs

/-- Strict lexicographic order on character lists. -/
def listCharLt : List Char → List Char → Bool
  | [], [] => false
  | [], _ :: _ => true
  | _ :: _, [] => false
  | a :: as, b :: bs =>
    if a.toNat < b.toNat then true
    else if b.toNat < a.toNat then false
    else listCharLt as bs

/-- Numeric view of a PyValue: Python treats bool as an int subtype and
compares ints and floats by exact value, so all three take part in numeric
comparison and equality through a common rational view. -/
def pyNumOf : PyValue → Option Rat
  | .pint n => some (n : Rat)
  | .pfloat q => some q
  | .pbool b => some (if b then 1 else 0)
  | _ => none

/-- Model of the Python comparison a <= b, none when the operands are not
comparable (Python raises TypeError there). -/
def pyLe (a b : PyValue) : Option Bool :=
  match pyNumOf a, pyNumOf b with
  | some x, some y => some (decide (x ≤ y))
  | _, _ =>
    match a, b with
    | .pstr s, .pstr t => some (listCharLe s.data t.data)
    | .pdate d, .pdate e => some (decide (dateKey d ≤ dateKey e))
    | .pdatetime d, .pdatetime e => some (decide (dtKey d ≤ dtKey e))
    | .ptime d, .ptime e => some (decide (timeKey d ≤ timeKey e))
    | _, _ => none

/-- Model of the Python comparison a < b. -/
def pyLt (a b : PyValue) : Option Bool :=
  match pyNumOf a, pyNumOf b with
  | some x, some y => some (decide (x < y))
  | _, _ =>
    match a, b with
    | .pstr s, .pstr t => some (listCharLt s.data t.data)
    | .pdate d, .pdate e => some (decide (dateKey d < dateKey e))
    | .pdatetime d, .pdatetime e => some (decide (dtKey d < dtKey e))
    | .ptime d, .ptime e => some (decide (timeKey d < timeKey e))
    | _, _ => none

/-- Model of the Python comparison a > b. -/
def pyGt (a b : PyValue) : Option Bool := pyLt b a

/-- Boolean form of pyLe; comparisons that would raise are only reached by
ill-typed rows, which the theorems below exclude by hypothesis. -/
def pyLeB (a b : PyValue) : Bool := (pyLe a b).getD false

/-- Model of Python equality between scalar values (never raises; mixed
bool and int compare numerically, any other cross-type pair is unequal). -/
def pyEq (a b : PyValue) : Bool :=
  match pyNumOf a, pyNumOf b with
  | some x, some y => decide (x = y)
  | _, _ =>
    match a, b with
    | .pstr s, .pstr t => decide (s = t)
    | .pdate d, .pdate e => decide (d = e)
    | .pdatetime d, .pdatetime e => decide (d = e)
    | .ptime d, .ptime e => decide (d = e)
    | .pnone, .pnone => true
    | _, _ => false

/-- Accumulator for decimal digit strings. -/
def digitsToNatAux : List Char → Nat → Option Nat
  | [], acc => some acc
  | c :: cs, acc =>
    match digitVal c with
    | some d => digitsToNatAux cs (acc * 10 + d)
    | none => none

/-- Value of a nonempty all-digit character list. -/
def digitsToNat : List Char → Option Nat
  | [] => none
  | cs => digitsToNatAux cs 0

/-- Model of float() restricted to integral literals (optionally signed
digit strings); fractional floats are outside the model. -/
def parseSignedDec : List Char → Option Int
  | '-' :: rest => (digitsToNat rest).map (fun n => -(n : Int))
  | '+' :: rest => (digitsToNat rest).map (fun n => (n : Int))
  | cs => (digitsToNat cs).map (fun n => (n : Int))

/-- Digit value in a given base (2, 8 or 16), accepting letter digits. -/
def digitValBase (base : Nat) (c : Char) : Option Nat :=
  let v :=
    if 48 ≤ c.toNat ∧ c.toNat ≤ 57 then some (c.toNat - 48)
    else if 97 ≤ c.toNat ∧ c.toNat ≤ 102 then some (c.toNat - 87)
    else if 65 ≤ c.toNat ∧ c.toNat ≤ 70 then some (c.toNat - 55)
    else none
  match v with
  | some n => if n < base then some n else none
  | none => none

/-- Accumulator for digit strings in a base. -/
def digitsToNatBaseAux (base : Nat) : List Char → Nat → Option Nat
  | [], acc => some acc
  | c :: cs, acc =>
    match digitValBase base c with
    | some d => digitsToNatBaseAux base cs (acc * base + d)
    | none => none

/-- Value of a nonempty digit string in a base. -/
def digitsToNatBase (base : Nat) : List Char → Option Nat
  | [] => none
  | cs => digitsToNatBaseAux base cs 0

/-- Strip the optional 0b / 0o / 0x prefix accepted by int(s, base). -/
def stripBasePrefix (base : Nat) : List Char → List Char
  | '0' :: c :: rest =>
    if (base == 2 && (c = 'b' ∨ c = 'B')) ∨ (base == 8 && (c = 'o' ∨ c = 'O')) ∨
       (base == 16 && (c = 'x' ∨ c = 'X')) then rest
    else '0' :: c :: rest
  | cs => cs

/-- Model of int(s, base) for base 2, 8 or 16. -/
def parseIntBaseSigned (base : Nat) : List Char → Option Int
  | '-' :: rest => (digitsToNatBase base (stripBasePrefix base rest)).map (fun n => -(n : Int))
  | '+' :: rest => (digitsToNatBase base (stripBasePrefix base rest)).map (fun n => (n : Int))
  | cs => (digitsToNatBase base (stripBasePrefix base cs)).map (fun n => (n : Int))

/-- Truthy strings of _convert_to_type in data_plane_table.py. -/
def truthyStringsTable : List String := ["True", "true", "t", "1"]

/-- Truthy strings of convert_to_type in data_plane_utils.py. -/
def truthyStringsUtils : List String := ["True", "true", "t", "1", "1.0"]

/-- Model of str() on a float value: the exact decimal expansion, with a
trailing .0 on integral floats.  Every float is a dyadic rational, so its
reduced denominator divides a power of ten and the expansion below is
finite; taking the least such power yields no trailing zero, which is the
shortest-repr decimal Python prints for the value the model carries. -/
def strFloat (q : Rat) : String :=
  let k := ((List.range 64).find? (fun k => 10 ^ k % q.den == 0)).getD 0
  let scaled : Int := q.num * (((10 ^ k) / q.den : Nat) : Int)
  let mag := scaled.natAbs
  let sign := if q.num < 0 then "-" else ""
  if k = 0 then sign ++ toString mag ++ ".0"
  else sign ++ toString (mag / 10 ^ k) ++ "." ++ (toString (10 ^ k + mag % 10 ^ k)).drop 1

/-- Shallow embedding of _convert_to_type from
src/dataplane/data_plane_table.py (lines 56-139).  Notable faithful
details: booleans pass the isinstance int test, so they survive number
conversion unchanged and floats pass through the number branch as well; an
integer converts to boolean True exactly when it equals 1, while a float
is neither bool, str nor int and so reaches the trailing return False of
the boolean branch; a value that is neither a string nor of the target type falls
off the end of the date and datetime branches and becomes Python None;
float() applied to such a value in the number branch raises a TypeError
that the code does not catch. -/
def _convert_to_type (data_plane_type : DPType) (value : PyValue) : Except CheckErr PyValue :=
  match data_plane_type with
  | .string =>
    match value with
    | .pstr s => .ok (.pstr s)
    | .pint n => .ok (.pstr (toString n))
    | .pfloat q => .ok (.pstr (strFloat q))
    | .pbool b => .ok (.pstr (if b then "True" else "False"))
    | .pdate d => .ok (.pstr (isoDate d))
    | .pdatetime dt => .ok (.pstr (strDateTime dt))
    | .ptime t => .ok (.pstr (isoTime t))
    | .pnone => .ok (.pstr "None")
  | .number =>
    match value with
    | .pint n => .ok (.pint n)
    | .pfloat q => .ok (.pfloat q)
    | .pbool b => .ok (.pbool b)
    | .pstr s =>
      match parseSignedDec s.data with
      | some n => .ok (.pint n)
      | none =>
        match parseIntBaseSigned 2 s.data with
        | some n => .ok (.pint n)
        | none =>
          match parseIntBaseSigned 8 s.data with
          | some n => .ok (.pint n)
          | none =>
            match parseIntBaseSigned 16 s.data with
            | some n => .ok (.pint n)
            | none => .error (.invalidData ("Cannot convert " ++ s ++ " to number"))
    | _ => .error (.pyExc .typeError)
  | .boolean =>
    match value with
    | .pbool b => .ok (.pbool b)
    | .pstr s => .ok (.pbool (truthyStringsTable.contains s))
    | .pint n => .ok (.pbool (decide (n = 1)))
    | _ => .ok (.pbool false)
  | .datetime =>
    match value with
    | .pdatetime dt => .ok (.pdatetime dt)
    | .pstr s =>
      match parseIsoDateTime s with
      | some dt => .ok (.pdatetime dt)
      | none => .error (.invalidData ("Cannot convert " ++ s ++ " to datetime"))
    | _ => .ok .pnone
  | .date =>
    match value with
    | .pdate d => .ok (.pdate d)
    | .pstr s =>
      match parseIsoDate s with
      | some d => .ok (.pdate d)
      | none => .error (.invalidData ("Cannot convert " ++ s ++ " to date"))
    | _ => .ok .pnone
  | .timeofday =>
    match value with
    | .ptime t => .ok (.ptime t)
    | .pstr s =>
      match parseIsoTime s with
      | some t => .ok (.ptime t)
      | none => .error (.invalidData ("Cannot convert " ++ s ++ " to time"))
    | _ => .error (.invalidData "Could not convert value to timeofday")

/-- Python type() membership in DATA_PLANE_PYTHON_TYPES for the first
pass-through test of the utils convert_to_type (an exact type test, so a
bool does not pass as a number, but DATA_PLANE_NUMBER lists both int and
float). -/
def pyTypeMatches (t : DPType) (v : PyValue) : Bool :=
  match t, v with
  | .string, .pstr _ => true
  | .number, .pint _ => true
  | .number, .pfloat _ => true
  | .boolean, .pbool _ => true
  | .date, .pdate _ => true
  | .datetime, .pdatetime _ => true
  | .timeofday, .ptime _ => true
  | _, _ => false

/-- Shallow embedding of convert_to_type from
src/dataplane/data_plane_utils.py (lines 139-232).  Differences from the
table-module variant that the code exhibits: the leading exact-type
pass-through; the truthy string set also holds 1.0; a nonzero integer
converts to boolean True, and so does a nonzero float through the
isinstance float branch; the number branch catches TypeError as well, so
unconvertible values raise InvalidDataException; date strings are parsed
through datetime.fromisoformat and truncated; the time branch falls back
to parsing a datetime and taking its time part; the date-family branches
raise rather than returning None on unconvertible values. -/
def convert_to_type (data_plane_type : DPType) (value : PyValue) : Except CheckErr PyValue :=
  if pyTypeMatches data_plane_type value then .ok value
  else
    match data_plane_type with
    | .string =>
      match value with
      | .pstr s => .ok (.pstr s)
      | .pint n => .ok (.pstr (toString n))
      | .pfloat q => .ok (.pstr (strFloat q))
      | .pbool b => .ok (.pstr (if b then "True" else "False"))
      | .pdate d => .ok (.pstr (isoDate d))
      | .pdatetime dt => .ok (.pstr (strDateTime dt))
      | .ptime t => .ok (.pstr (isoTime t))
      | .pnone => .ok (.pstr "None")
    | .number =>
      match value with
      | .pint n => .ok (.pint n)
      | .pfloat q => .ok (.pfloat q)
      | .pbool b => .ok (.pbool b)
      | .pstr s =>
        match parseSignedDec s.data with
        | some n => .ok (.pint n)
        | none =>
          match parseIntBaseSigned 2 s.data with
          | some n => .ok (.pint n)
          | none =>
            match parseIntBaseSigned 8 s.data with
            | some n => .ok (.pint n)
            | none =>
              match parseIntBaseSigned 16 s.data with
              | some n => .ok (.pint n)
              | none => .error (.invalidData ("Cannot convert " ++ s ++ " to number"))
      | _ => .error (.invalidData "Cannot convert value to number")
    | .boolean =>
      match value with
      | .pbool b => .ok (.pbool b)
      | .pstr s => .ok (.pbool (truthyStringsUtils.contains s))
      | .pint n => .ok (.pbool (decide (n ≠ 0)))
      | .pfloat q => .ok (.pbool (decide (q ≠ 0)))
      | _ => .ok (.pbool false)
    | .datetime =>
      match value with
      | .pdate d => .ok (.pdatetime ⟨d.year, d.month, d.day, 0, 0, 0⟩)
      | .pstr s =>
        match parseIsoDateTime s with
        | some dt => .ok (.pdatetime dt)
        | none => .error (.invalidData ("Cannot convert " ++ s ++ " to datetime"))
      | _ => .error (.invalidData "Cannot convert value to datetime")
    | .date =>
      match value with
      | .pdatetime dt => .ok (.pdate ⟨dt.year, dt.month, dt.day⟩)
      | .pstr s =>
        match parseIsoDateTime s with
        | some dt => .ok (.pdate ⟨dt.year, dt.month, dt.day⟩)
        | none => .error (.invalidData ("Cannot convert " ++ s ++ " to date"))
      | _ => .error (.invalidData "Cannot convert value to date")
    | .timeofday =>
      match value with
      | .pdatetime dt => .ok (.ptime ⟨dt.hour, dt.minute, dt.second⟩)
      | .pstr s =>
        match parseIsoTime s with
        | some t => .ok (.ptime t)
        | none =>
          match parseIsoDateTime s with
          | some dt => .ok (.ptime ⟨dt.hour, dt.minute, dt.second⟩)
          | none => .error (.invalidData ("Cannot convert " ++ s ++ " to time"))
      | _ => .error (.invalidData "Could not convert value to timeofday")

/-- Shallow embedding of _convert_to_output_string (data_plane_table.py
lines 158-172): primitive types pass through, date-family values render as
ISO strings via value.isoformat(); on any other value the attribute access
raises AttributeError, which the code does not catch. -/
def _convert_to_output_string (data_plane_type : DPType) (value : PyValue) : Except CheckErr PyValue :=
  match data_plane_type with
  | .boolean => .ok value
  | .number => .ok value
  | .string => .ok value
  | _ =>
    match value with
    | .pdate d => .ok (.pstr (isoDate d))
    | .pdatetime dt => .ok (.pstr (isoDateTime dt))
    | .ptime t => .ok (.pstr (isoTime t))
    | _ => .error (.pyExc .attributeError)

/-- Shallow embedding of _convert_list_to_type (elementwise conversion,
first exception propagates). -/
def _convert_list_to_type (data_plane_type : DPType) : List PyValue → Except CheckErr (List PyValue)
  | [] => .ok []
  | v :: vs =>
    match _convert_to_type data_plane_type v with
    | .error e => .error e
    | .ok w =>
      match _convert_list_to_type data_plane_type vs with
      | .ok ws => .ok (w :: ws)
      | .error e => .error e

/-- Shallow embedding of _convert_list_to_string. -/
def _convert_list_to_string (data_plane_type : DPType) : List PyValue → Except CheckErr (List PyValue)
  | [] => .ok []
  | v :: vs =>
    match _convert_to_output_string data_plane_type v with
    | .error e => .error e
    | .ok w =>
      match _convert_list_to_string data_plane_type vs with
      | .ok ws => .ok (w :: ws)
      | .error e => .error e

/-- Core regular-expression abstract syntax (the fragment of the Python re
module exercised by the code under verification). -/
inductive RE where
  | zero
  | eps
  | lit (c : Char)
  | dot
  | alt (a b : RE)
  | cat (a b : RE)
  | star (a : RE)
deriving DecidableEq, Repr

/-- Nullability: does the expression accept the empty string. -/
def nullable : RE → Bool
  | .zero => false
  | .eps => true
  | .lit _ => false
  | .dot => false
  | .alt a b => nullable a || nullable b
  | .cat a b => nullable a && nullable b
  | .star _ => true

/-- Brzozowski derivative of an expression by a character. -/
def deriv (r : RE) (x : Char) : RE :=
  match r with
  | .zero => .zero
  | .eps => .zero
  | .lit c => if c = x then .eps else .zero
  | .dot => .eps
  | .alt a b => .alt (deriv a x) (deriv b x)
  | .cat a b =>
    if nullable a then .alt (.cat (deriv a x) b) (deriv b x)
    else .cat (deriv a x) b
  | .star a => .cat (deriv a x) (.star a)

/-- Whole-list acceptance by derivative matching. -/
def reMatchChars : RE → List Char → Bool
  | r, [] => nullable r
  | r, c :: cs => reMatchChars (deriv r c) cs

/-- Model of pattern.fullmatch(s) is not None: acceptance of the whole
string, anchored at both ends by construction. -/
def reFullMatch (r : RE) (s : String) : Bool := reMatchChars r s.data

/-- Characters that are metacharacters of the modelled regex grammar. -/
def reMetaChars : List Char :=
  ['(', ')', '*', '+', '?', '|', '.', '\\', '[', ']', '^', '$', '\x7b', '\x7d']

/-- Does the character list start with a quantifier (a second quantifier
directly after one is the multiple-repeat error of re.compile). -/
def startsWithQuant : List Char → Bool
  | c :: _ => c = '*' ∨ c = '+' ∨ c = '?'
  | [] => false

mutual

/-- Recursive-descent parse of an alternation, fuel-bounded. -/
def pAlt : Nat → List Char → Option (RE × List Char)
  | 0, _ => none
  | fuel + 1, cs =>
    match pCat fuel cs with
    | none => none
    | some (r, rest) =>
      match rest with
      | '|' :: rest2 =>
        match pAlt fuel rest2 with
        | some (r2, rest3) => some (.alt r r2, rest3)
        | none => none
      | _ => some (r, rest)

/-- Recursive-descent parse of a concatenation, fuel-bounded. -/
def pCat : Nat → List Char → Option (RE × List Char)
  | 0, _ => none
  | fuel + 1, cs =>
    match cs with
    | [] => some (.eps, [])
    | c :: _ =>
      if c = ')' ∨ c = '|' then some (.eps, cs)
      else
        match pRep fuel cs with
        | none => none
        | some (r, rest) =>
          match pCat fuel rest with
          | some (r2, rest2) => some (.cat r r2, rest2)
          | none => none

/-- Recursive-descent parse of a possibly quantified atom, fuel-bounded. -/
def pRep : Nat → List Char → Option (RE × List Char)
  | 0, _ => none
  | fuel + 1, cs =>
    match pAtom fuel cs with
    | none => none
    | some (r, rest) =>
      match rest with
      | '*' :: rest2 => if startsWithQuant rest2 then none else some (.star r, rest2)
      | '+' :: rest2 => if startsWithQuant rest2 then none else some (.cat r (.star r), rest2)
      | '?' :: rest2 => if startsWithQuant rest2 then none else some (.alt r .eps, rest2)
      | _ => some (r, rest)

/-- Recursive-descent parse of an atom, fuel-bounded. -/
def pAtom : Nat → List Char → Option (RE × List Char)
  | 0, _ => none
  | fuel + 1, cs =>
    match cs with
    | '(' :: rest =>
      match pAlt fuel rest with
      | some (r, ')' :: rest2) => some (r, rest2)
      | _ => none
    | '.' :: rest => some (.dot, rest)
    | '\\' :: c :: rest => some (.lit c, rest)
    | c :: rest => if reMetaChars.contains c then none else some (.lit c, rest)
    | [] => none

end

/-- Model of re.compile for the covered grammar: some on success, none
when re.compile would raise re.error (for instance on an unterminated
group). -/
def parseRegex (s : String) : Option RE :=
  match pAlt (4 * s.data.length + 8) s.data with
  | some (r, []) => some r
  | _ => none

/-- Compound operator names. -/
inductive CompOp where
  | ALL
  | ANY
  | NONE
deriving DecidableEq, Repr

/-- Filter Specification tree, the validated dictionary form of
data_plane_table.py as a tagged union.  The expression field of
REGEX_MATCH keeps the full PyValue domain because check_valid_spec treats
string and non-string expressions differently. -/
inductive FilterSpec where
  | compound (operator : CompOp) (arguments : List FilterSpec)
  | in_list (column : String) (values : List PyValue)
  | in_range (column : String) (max_val min_val : PyValue)
  | regex_match (column : String) (expression : PyValue)

/-- Compiled filter: the state DataPlaneFilter.__init__ stores on self. -/
inductive DPFilter where
  | compound (operator : CompOp) (arguments : List DPFilter)
  | in_list (column_index : Nat) (column_name : String) (column_type : DPType)
      (value_list : List PyValue)
  | in_range (column_index : Nat) (column_name : String) (column_type : DPType)
      (max_val min_val : PyValue)
  | regex_match (column_index : Nat) (column_name : String) (expression : String) (regex : RE)

mutual

/-- Decidable equality for FilterSpec (the derive handler does not support
nested inductives, so it is spelled out). -/
def fsDecEq : (a b : FilterSpec) → Decidable (a = b)
  | .compound o1 a1, .compound o2 a2 =>
    if ho : o1 = o2 then
      match fsDecEqList a1 a2 with
      | .isTrue h => .isTrue (by rw [ho, h])
      | .isFalse h => .isFalse (by simp [h])
    else .isFalse (by simp [ho])
  | .compound _ _, .in_list _ _ => .isFalse (by simp)
  | .compound _ _, .in_range _ _ _ => .isFalse (by simp)
  | .compound _ _, .regex_match _ _ => .isFalse (by simp)
  | .in_list _ _, .compound _ _ => .isFalse (by simp)
  | .in_list c1 v1, .in_list c2 v2 =>
    if h : c1 = c2 ∧ v1 = v2 then .isTrue (by rw [h.1, h.2])
    else .isFalse (by simp; intro h1 h2; exact h ⟨h1, h2⟩)
  | .in_list _ _, .in_range _ _ _ => .isFalse (by simp)
  | .in_list _ _, .regex_match _ _ => .isFalse (by simp)
  | .in_range _ _ _, .compound _ _ => .isFalse (by simp)
  | .in_range _ _ _, .in_list _ _ => .isFalse (by simp)
  | .in_range c1 x1 n1, .in_range c2 x2 n2 =>
    if h : c1 = c2 ∧ x1 = x2 ∧ n1 = n2 then .isTrue (by rw [h.1, h.2.1, h.2.2])
    else .isFalse (by simp; intro h1 h2 h3; exact h ⟨h1, h2, h3⟩)
  | .in_range _ _ _, .regex_match _ _ => .isFalse (by simp)
  | .regex_match _ _, .compound _ _ => .isFalse (by simp)
  | .regex_match _ _, .in_list _ _ => .isFalse (by simp)
  | .regex_match _ _, .in_range _ _ _ => .isFalse (by simp)
  | .regex_match c1 e1, .regex_match c2 e2 =>
    if h : c1 = c2 ∧ e1 = e2 then .isTrue (by rw [h.1, h.2])
    else .isFalse (by simp; intro h1 h2; exact h ⟨h1, h2⟩)

/-- Decidable equality for lists of FilterSpec. -/
def fsDecEqList : (a b : List FilterSpec) → Decidable (a = b)
  | [], [] => .isTrue rfl
  | [], _ :: _ => .isFalse (by simp)
  | _ :: _, [] => .isFalse (by simp)
  | x :: xs, y :: ys =>
    match fsDecEq x y with
    | .isTrue h =>
      match fsDecEqList xs ys with
      | .isTrue h2 => .isTrue (by rw [h, h2])
      | .isFalse h2 => .isFalse (by simp [h2])
    | .isFalse h => .isFalse (by simp [h])

end

instance : DecidableEq FilterSpec := fsDecEq

mutual

/-- Decidable equality for DPFilter. -/
def dpfDecEq : (a b : DPFilter) → Decidable (a = b)
  | .compound o1 a1, .compound o2 a2 =>
    if ho : o1 = o2 then
      match dpfDecEqList a1 a2 with
      | .isTrue h => .isTrue (by rw [ho, h])
      | .isFalse h => .isFalse (by simp [h])
    else .isFalse (by simp [ho])
  | .compound _ _, .in_list _ _ _ _ => .isFalse (by simp)
  | .compound _ _, .in_range _ _ _ _ _ => .isFalse (by simp)
  | .compound _ _, .regex_match _ _ _ _ => .isFalse (by simp)
  | .in_list _ _ _ _, .compound _ _ => .isFalse (by simp)
  | .in_list i1 c1 t1 v1, .in_list i2 c2 t2 v2 =>
    if h : i1 = i2 ∧ c1 = c2 ∧ t1 = t2 ∧ v1 = v2 then
      .isTrue (by rw [h.1, h.2.1, h.2.2.1, h.2.2.2])
    else .isFalse (by simp; intro h1 h2 h3 h4; exact h ⟨h1, h2, h3, h4⟩)
  | .in_list _ _ _ _, .in_range _ _ _ _ _ => .isFalse (by simp)
  | .in_list _ _ _ _, .regex_match _ _ _ _ => .isFalse (by simp)
  | .in_range _ _ _ _ _, .compound _ _ => .isFalse (by simp)
  | .in_range _ _ _ _ _, .in_list _ _ _ _ => .isFalse (by simp)
  | .in_range i1 c1 t1 x1 n1, .in_range i2 c2 t2 x2 n2 =>
    if h : i1 = i2 ∧ c1 = c2 ∧ t1 = t2 ∧ x1 = x2 ∧ n1 = n2 then
      .isTrue (by rw [h.1, h.2.1, h.2.2.1, h.2.2.2.1, h.2.2.2.2])
    else .isFalse (by simp; intro h1 h2 h3 h4 h5; exact h ⟨h1, h2, h3, h4, h5⟩)
  | .in_range _ _ _ _ _, .regex_match _ _ _ _ => .isFalse (by simp)
  | .regex_match _ _ _ _, .compound _ _ => .isFalse (by simp)
  | .regex_match _ _ _ _, .in_list _ _ _ _ => .isFalse (by simp)
  | .regex_match _ _ _ _, .in_range _ _ _ _ _ => .isFalse (by simp)
  | .regex_match i1 c1 e1 r1, .regex_match i2 c2 e2 r2 =>
    if h : i1 = i2 ∧ c1 = c2 ∧ e1 = e2 ∧ r1 = r2 then
      .isTrue (by rw [h.1, h.2.1, h.2.2.1, h.2.2.2])
    else .isFalse (by simp; intro h1 h2 h3 h4; exact h ⟨h1, h2, h3, h4⟩)

/-- Decidable equality for lists of DPFilter. -/
def dpfDecEqList : (a b : List DPFilter) → Decidable (a = b)
  | [], [] => .isTrue rfl
  | [], _ :: _ => .isFalse (by simp)
  | _ :: _, [] => .isFalse (by simp)
  | x :: xs, y :: ys =>
    match dpfDecEq x y with
    | .isTrue h =>
      match dpfDecEqList xs ys with
      | .isTrue h2 => .isTrue (by rw [h, h2])
      | .isFalse h2 => .isFalse (by simp [h2])
    | .isFalse h => .isFalse (by simp [h])

end

instance : DecidableEq DPFilter := dpfDecEq

mutual

/-- Shallow embedding of check_valid_spec (data_plane_table.py lines
196-276).  The dictionary-shape checks (missing operator, unknown
operator, non-list arguments or values) are unrepresentable in the tagged
union; the semantic checks remain.  Faithful detail for REGEX_MATCH: the
code wraps re.compile in try/except TypeError only, so a string expression
that fails to compile raises re.error, which escapes uncaught, while a
non-string expression raises TypeError inside re.compile and is converted
to InvalidDataException. -/
def check_valid_spec : FilterSpec → Except CheckErr Unit
  | .compound _ arguments => check_valid_spec_list arguments
  | .in_list _ _ => .ok ()
  | .in_range _ max_val min_val =>
    match pyGt max_val min_val with
    | some _ => .ok ()
    | none => .error (.invalidData "max_val and min_val must be comparable for an IN_RANGE filter")
  | .regex_match _ expression =>
    match expression with
    | .pstr s =>
      match parseRegex s with
      | some _ => .ok ()
      | none => .error (.pyExc .reError)
    | _ => .error (.invalidData "Expression is not a valid regular expression")

/-- Recursive validity check of a compound argument list, first failure
propagating. -/
def check_valid_spec_list : List FilterSpec → Except CheckErr Unit
  | [] => .ok ()
  | s :: rest =>
    match check_valid_spec s with
    | .ok _ => check_valid_spec_list rest
    | .error e => .error e

end

/-- Schema column descriptor. -/
structure Column where
  name : String
  type : DPType
deriving DecidableEq, Repr

/-- Resolution of a column name against the schema, as done by
column_names.index in DataPlaneFilter.__init__ (ValueError becomes
InvalidDataException). -/
def resolve_column (columns : List Column) (name : String) : Except CheckErr (Nat × DPType) :=
  match (columns.map Column.name).findIdx? (fun n => n = name) with
  | some idx => .ok (idx, (columns.map Column.type).getD idx .string)
  | none => .error (.invalidData (name ++ " is not a valid column name"))

mutual

/-- Shallow embedding of DataPlaneFilter.__init__ (data_plane_table.py
lines 301-333): validate the spec, then resolve the column and coerce the
payload.  For IN_RANGE the two stored bounds are chosen by the same
comparison the code makes twice (max_val >= min_val and min_val <=
max_val), which silently sorts a swapped pair; an incomparable pair after
coercion raises TypeError uncaught. -/
def compile : FilterSpec → List Column → Except CheckErr DPFilter
  | .compound operator arguments, columns =>
    match check_valid_spec (.compound operator arguments) with
    | .error e => .error e
    | .ok _ =>
      match compile_list arguments columns with
      | .ok fs => .ok (.compound operator fs)
      | .error e => .error e
  | .in_list column values, columns =>
    match check_valid_spec (.in_list column values) with
    | .error e => .error e
    | .ok _ =>
      match resolve_column columns column with
      | .error e => .error e
      | .ok (idx, ty) =>
        match _convert_list_to_type ty values with
        | .ok value_list => .ok (.in_list idx column ty value_list)
        | .error e => .error e
  | .in_range column maxv minv, columns =>
    match check_valid_spec (.in_range column maxv minv) with
    | .error e => .error e
    | .ok _ =>
      match resolve_column columns column with
      | .error e => .error e
      | .ok (idx, ty) =>
        match _convert_to_type ty maxv with
        | .error e => .error e
        | .ok max_val =>
          match _convert_to_type ty minv with
          | .error e => .error e
          | .ok min_val =>
            match pyLe min_val max_val with
            | none => .error (.pyExc .typeError)
            | some c =>
              .ok (.in_range idx column ty (if c then max_val else min_val)
                    (if c then min_val else max_val))
  | .regex_match column expression, columns =>
    match check_valid_spec (.regex_match column expression) with
    | .error e => .error e
    | .ok _ =>
      match resolve_column columns column with
      | .error e => .error e
      | .ok (idx, ty) =>
        if ty = .string then
          match expression with
          | .pstr s =>
            match parseRegex s with
            | some r => .ok (.regex_match idx column s r)
            | none => .error (.pyExc .reError)
          | _ => .error (.pyExc .typeError)
        else
          .error (.invalidData "The column type for a REGEX filter must be DATA_PLANE_STRING")

/-- Compilation of a compound argument list, first failure propagating. -/
def compile_list : List FilterSpec → List Column → Except CheckErr (List DPFilter)
  | [], _ => .ok []
  | s :: rest, columns =>
    match compile s columns with
    | .error e => .error e
    | .ok f =>
      match compile_list rest columns with
      | .ok fs => .ok (f :: fs)
      | .error e => .error e

end

mutual

/-- Operator dispatch of DataPlaneFilter.__init__ after the initial
check_valid_spec call; compile agrees with this dispatch whenever
validation passes.  Spelled out separately so each operator case is a
top-level equation. -/
def compile_core : FilterSpec → List Column → Except CheckErr DPFilter
  | .compound operator arguments, columns =>
    match compile_list arguments columns with
    | .ok fs => .ok (.compound operator fs)
    | .error e => .error e
  | .in_list column values, columns =>
    match resolve_column columns column with
    | .error e => .error e
    | .ok (idx, ty) =>
      match _convert_list_to_type ty values with
      | .ok value_list => .ok (.in_list idx column ty value_list)
      | .error e => .error e
  | .in_range column maxv minv, columns =>
    match resolve_column columns column with
    | .error e => .error e
    | .ok (idx, ty) =>
      match _convert_to_type ty maxv with
      | .error e => .error e
      | .ok max_val =>
        match _convert_to_type ty minv with
        | .error e => .error e
        | .ok min_val =>
          match pyLe min_val max_val with
          | none => .error (.pyExc .typeError)
          | some c =>
            .ok (.in_range idx column ty (if c then max_val else min_val)
                  (if c then min_val else max_val))
  | .regex_match column expression, columns =>
    match resolve_column columns column with
    | .error e => .error e
    | .ok (idx, ty) =>
      if ty = .string then
        match expression with
        | .pstr s =>
          match parseRegex s with
          | some r => .ok (.regex_match idx column s r)
          | none => .error (.pyExc .reError)
        | _ => .error (.pyExc .typeError)
      else
        .error (.invalidData "The column type for a REGEX filter must be DATA_PLANE_STRING")

/-- Shallow embedding of DataPlaneFilter.to_filter_spec (data_plane_table.py
lines 335-360).  Serialization can raise: _convert_to_output_string calls
value.isoformat() on the stored values of date-family columns, and a stored
None (produced by _convert_to_type on an unconvertible value) then raises
AttributeError. -/
def to_filter_spec : DPFilter → Except CheckErr FilterSpec
  | .compound operator arguments =>
    match to_filter_spec_list arguments with
    | .ok specs => .ok (.compound operator specs)
    | .error e => .error e
  | .in_list _ column_name column_type value_list =>
    match _convert_list_to_string column_type value_list with
    | .ok values => .ok (.in_list column_name values)
    | .error e => .error e
  | .in_range _ column_name column_type max_val min_val =>
    match _convert_to_output_string column_type max_val with
    | .error e => .error e
    | .ok mv =>
      match _convert_to_output_string column_type min_val with
      | .error e => .error e
      | .ok nv => .ok (.in_range column_name mv nv)
  | .regex_match _ column_name expression _ =>
    .ok (.regex_match column_name (.pstr expression))

/-- Serialization of a compound argument list. -/
def to_filter_spec_list : List DPFilter → Except CheckErr (List FilterSpec)
  | [] => .ok []
  | f :: fs =>
    match to_filter_spec f with
    | .error e => .error e
    | .ok s =>
      match to_filter_spec_list fs with
      | .ok ss => .ok (s :: ss)
      | .error e => .error e

end

/-- Rows are lists of values in schema column order. -/
abbrev Row := List PyValue

/-- Value of row i at column idx, as rows[i][idx]. -/
def row_value (rows : List Row) (i idx : Nat) : PyValue :=
  (rows.getD i []).getD idx .pnone

/-- Model of pattern.fullmatch on a row value (a non-string value would
raise TypeError in Python; well-typed REGEX_MATCH columns are strings). -/
def pyFullMatchB (r : RE) (v : PyValue) : Bool :=
  match v with
  | .pstr s => reFullMatch r s
  | _ => false

mutual

/-- Shallow embedding of DataPlaneFilter.filter_index (data_plane_table.py
lines 377-407): ALL folds intersection from the universal index set, ANY
folds union from the empty set, NONE folds set difference from the
universal set; the primitive operators filter the universal index set by
membership, inclusive range comparison, or full regex match. -/
def filter_index : DPFilter → List Row → Finset Nat
  | .compound operator arguments, rows =>
    let argument_indices := filter_index_list arguments rows
    match operator with
    | .ALL => argument_indices.foldl (fun x y => x ∩ y) (Finset.range rows.length)
    | .ANY => argument_indices.foldl (fun x y => x ∪ y) ∅
    | .NONE => argument_indices.foldl (fun x y => x \ y) (Finset.range rows.length)
  | .in_list idx _ _ value_list, rows =>
    (Finset.range rows.length).filter
      (fun i => value_list.any (fun v => pyEq (row_value rows i idx) v) = true)
  | .in_range idx _ _ max_val min_val, rows =>
    (Finset.range rows.length).filter
      (fun i => (pyLeB (row_value rows i idx) max_val && pyLeB min_val (row_value rows i idx)) = true)
  | .regex_match idx _ _ r, rows =>
    (Finset.range rows.length).filter (fun i => pyFullMatchB r (row_value rows i idx) = true)

/-- Evaluation of the argument filters of a compound node. -/
def filter_index_list : List DPFilter → List Row → List (Finset Nat)
  | [], _ => []
  | f :: fs, rows => filter_index f rows :: filter_index_list fs rows

end

/-- Shallow embedding of DataPlaneFilter.filter (data_plane_table.py lines
362-375): the rows whose index passes filter_index, in original order. -/
def filterRows (f : DPFilter) (rows : List Row) : List Row :=
  ((List.range rows.length).filter (fun i => i ∈ filter_index f rows)).map
    (fun i => rows.getD i [])

/-- Table state: the schema plus the rows returned by get_rows (as for
RowTable, the fixed-row variant). -/
structure DataPlaneTable where
  schema : List Column
  rows : List Row

/-- Shallow embedding of DataPlaneTable.column_names. -/
def column_names (t : DataPlaneTable) : List String := t.schema.map Column.name

/-- Model of list(set(values)): deduplication by Python equality.  The
iteration order of a Python set is unspecified; the choice made here is
erased by the sort that every caller applies. -/
def pyDedup : List PyValue → List PyValue
  | [] => []
  | v :: vs =>
    if (pyDedup vs).any (fun w => pyEq v w) then pyDedup vs else v :: pyDedup vs

/-- Insertion into a list sorted ascending by pyLeB. -/
def insertSorted (a : PyValue) : List PyValue → List PyValue
  | [] => [a]
  | b :: bs => if pyLeB a b then a :: b :: bs else b :: insertSorted a bs

/-- Model of list.sort(): ascending sort by the Python order.  Insertion
sort produces the same list as Python for the mutually comparable inputs
the theorems quantify over. -/
def pySort : List PyValue → List PyValue
  | [] => []
  | a :: rest => insertSorted a (pySort rest)

/-- Shallow embedding of DataPlaneTable.all_values (data_plane_table.py
lines 507-526): resolve the column (unknown name raises
InvalidDataException), deduplicate the column values, convert them to the
column type, sort ascending. -/
def all_values (t : DataPlaneTable) (column_name : String) : Except CheckErr (List PyValue) :=
  match (column_names t).findIdx? (fun n => n = column_name) with
  | none => .error (.invalidData (column_name ++ " is not a column of this table"))
  | some index =>
    let data_plane_type := (t.schema.map Column.type).getD index .string
    match _convert_list_to_type data_plane_type
        (pyDedup (t.rows.map (fun row => row.getD index .pnone))) with
    | .ok result => .ok (pySort result)
    | .error e => .error e

/-- Shallow embedding of _select_entries_from_row (data_plane_table.py
lines 438-446): the entries of the row whose position is in indices, in
row (that is, schema) order. -/
def _select_entries_from_row (row : Row) (indices : List Nat) : Row :=
  ((List.range row.length).filter (fun i => indices.contains i)).map
    (fun i => row.getD i .pnone)

/-- Filtering half of DataPlaneTable.get_filtered_rows
(data_plane_table.py lines 560-564): no filter_spec means all rows, else
compile against the schema and filter. -/
def _filtered_rows (t : DataPlaneTable) : Option FilterSpec → Except CheckErr (List Row)
  | none => .ok t.rows
  | some spec =>
    match compile spec t.schema with
    | .ok made_filter => .ok (filterRows made_filter t.rows)
    | .error e => .error e

/-- Shallow embedding of DataPlaneTable.get_filtered_rows
(data_plane_table.py lines 547-570): None columns becomes the empty list;
no filter_spec means all rows; an empty columns list means no projection;
otherwise project each row onto the schema positions whose name was
requested, in schema order. -/
def get_filtered_rows (t : DataPlaneTable) (filter_spec : Option FilterSpec)
    (columns : Option (List String)) : Except CheckErr (List Row) :=
  let columns := columns.getD []
  match _filtered_rows t filter_spec with
  | .error e => .error e
  | .ok rows =>
    if columns = [] then .ok rows
    else
      let names := column_names t
      let column_indices := (List.range names.length).filter
        (fun i => columns.contains (names.getD i ""))
      .ok (rows.map (fun row => _select_entries_from_row row column_indices))

/-- Values in the image of a successful _convert_to_type at the given
type, with the validity Python guarantees for date-family objects.  These
are exactly the stored values for which serialization round-trips. -/
def typedOK : DPType → PyValue → Bool
  | .string, .pstr _ => true
  | .number, .pint _ => true
  | .number, .pfloat _ => true
  | .number, .pbool _ => true
  | .boolean, .pbool _ => true
  | .date, .pdate d => validDate d
  | .datetime, .pdatetime dt => validDateTime dt
  | .timeofday, .ptime tm => validTime tm
  | _, _ => false

/-- Strict well-typedness of a row value for a schema column type (the
contract get_rows is documented to satisfy). -/
def rowTyped : DPType → PyValue → Bool
  | .string, .pstr _ => true
  | .number, .pint _ => true
  | .boolean, .pbool _ => true
  | .date, .pdate _ => true
  | .datetime, .pdatetime _ => true
  | .timeofday, .ptime _ => true
  | _, _ => false

mutual

/-- Well-typedness of the values stored inside a compiled filter: every
coerced payload value has the domain type of its column.  This excludes
exactly the stored None values a date-family coercion can produce. -/
def filterWF : DPFilter → Bool
  | .compound _ arguments => filterWF_list arguments
  | .in_list _ _ column_type value_list => value_list.all (typedOK column_type)
  | .in_range _ _ column_type max_val min_val =>
    typedOK column_type max_val && typedOK column_type min_val
  | .regex_match _ _ _ _ => true

/-- List version of filterWF. -/
def filterWF_list : List DPFilter → Bool
  | [] => true
  | f :: fs => filterWF f && filterWF_list fs

end

mutual

/-- Structural invariants a compiled filter carries relative to its
schema: stored column index and type come from resolving the stored name,
IN_RANGE bounds are sorted, the stored regex is the parse of the stored
expression.  Every filter produced by compile satisfies this. -/
def filterStruct (columns : List Column) : DPFilter → Bool
  | .compound _ arguments => filterStruct_list columns arguments
  | .in_list idx name ty _ =>
    match resolve_column columns name with
    | .ok (i, t) => decide (i = idx) && decide (t = ty)
    | .error _ => false
  | .in_range idx name ty max_val min_val =>
    (match resolve_column columns name with
     | .ok (i, t) => decide (i = idx) && decide (t = ty)
     | .error _ => false) && pyLeB min_val max_val
  | .regex_match idx name expression r =>
    (match resolve_column columns name with
     | .ok (i, t) => decide (i = idx) && decide (t = DPType.string)
     | .error _ => false) && decide (parseRegex expression = some r)

/-- List version of filterStruct. -/
def filterStruct_list (columns : List Column) : List DPFilter → Bool
  | [] => true
  | f :: fs => filterStruct columns f && filterStruct_list columns fs

end

/-! Lemma layer. -/

/-- Membership in a left fold of intersections. -/
theorem mem_foldl_inter (l : List (Finset Nat)) (init : Finset Nat) (i : Nat) :
    i ∈ l.foldl (fun x y => x ∩ y) init ↔ i ∈ init ∧ ∀ s ∈ l, i ∈ s := by
  induction l generalizing init with
  | nil => simp
  | cons s rest ih =>
    simp only [List.foldl_cons, ih, Finset.mem_inter, List.mem_cons]
    constructor
    · rintro ⟨⟨h1, h2⟩, h3⟩
      exact ⟨h1, fun x hx => by rcases hx with rfl | hx; exact h2; exact h3 x hx⟩
    · rintro ⟨h1, h2⟩
      exact ⟨⟨h1, h2 s (Or.inl rfl)⟩, fun x hx => h2 x (Or.inr hx)⟩

/-- Membership in a left fold of unions. -/
theorem mem_foldl_union (l : List (Finset Nat)) (init : Finset Nat) (i : Nat) :
    i ∈ l.foldl (fun x y => x ∪ y) init ↔ i ∈ init ∨ ∃ s ∈ l, i ∈ s := by
  induction l generalizing init with
  | nil => simp
  | cons s rest ih =>
    simp only [List.foldl_cons, ih, Finset.mem_union, List.mem_cons]
    constructor
    · rintro (⟨h1 | h1⟩ | ⟨x, hx, h2⟩)
      · exact Or.inl h1
      · exact Or.inr ⟨s, Or.inl rfl, h1⟩
      · exact Or.inr ⟨x, Or.inr hx, h2⟩
    · rintro (h1 | ⟨x, (rfl | hx), h2⟩)
      · exact Or.inl (Or.inl h1)
      · exact Or.inl (Or.inr h2)
      · exact Or.inr ⟨x, hx, h2⟩

/-- Membership in a left fold of set differences. -/
theorem mem_foldl_sdiff (l : List (Finset Nat)) (init : Finset Nat) (i : Nat) :
    i ∈ l.foldl (fun x y => x \ y) init ↔ i ∈ init ∧ ∀ s ∈ l, i ∉ s := by
  induction l generalizing init with
  | nil => simp
  | cons s rest ih =>
    simp only [List.foldl_cons, ih, Finset.mem_sdiff, List.mem_cons]
    constructor
    · rintro ⟨⟨h1, h2⟩, h3⟩
      exact ⟨h1, fun x hx => by rcases hx with rfl | hx; exact h2; exact h3 x hx⟩
    · rintro ⟨h1, h2⟩
      exact ⟨⟨h1, h2 s (Or.inl rfl)⟩, fun x hx => h2 x (Or.inr hx)⟩

/-- The list helper of filter_index is the elementwise map. -/
theorem filter_index_list_eq (fs : List DPFilter) (rows : List Row) :
    filter_index_list fs rows = fs.map (fun f => filter_index f rows) := by
  induction fs with
  | nil => rfl
  | cons f rest ih => simp [filter_index_list, ih]

/-- Structural induction principle for DPFilter through its nested
argument lists. -/
theorem dpfIndOn (P : DPFilter → Prop)
    (hcomp : ∀ op args, (∀ a ∈ args, P a) → P (.compound op args))
    (hlist : ∀ idx name ty vs, P (.in_list idx name ty vs))
    (hrange : ∀ idx name ty mv nv, P (.in_range idx name ty mv nv))
    (hregex : ∀ idx name e r, P (.regex_match idx name e r)) : ∀ f, P f := fun f =>
  match f with
  | .compound op args =>
    hcomp op args (fun a ha => dpfIndOn P hcomp hlist hrange hregex a)
  | .in_list idx name ty vs => hlist idx name ty vs
  | .in_range idx name ty mv nv => hrange idx name ty mv nv
  | .regex_match idx name e r => hregex idx name e r
termination_by f => sizeOf f
decreasing_by
  have := List.sizeOf_lt_of_mem ha
  simp only [DPFilter.compound.sizeOf_spec]
  omega

/-- Structural induction principle for FilterSpec through its nested
argument lists. -/
theorem fsIndOn (P : FilterSpec → Prop)
    (hcomp : ∀ op args, (∀ a ∈ args, P a) → P (.compound op args))
    (hlist : ∀ name vs, P (.in_list name vs))
    (hrange : ∀ name mv nv, P (.in_range name mv nv))
    (hregex : ∀ name e, P (.regex_match name e)) : ∀ s, P s := fun s =>
  match s with
  | .compound op args =>
    hcomp op args (fun a ha => fsIndOn P hcomp hlist hrange hregex a)
  | .in_list name vs => hlist name vs
  | .in_range name mv nv => hrange name mv nv
  | .regex_match name e => hregex name e
termination_by s => sizeOf s
decreasing_by
  have := List.sizeOf_lt_of_mem ha
  simp only [FilterSpec.compound.sizeOf_spec]
  omega

/-- Every index set computed by filter_index lies inside the universal
index set of the row list. -/
theorem filter_index_subset (f : DPFilter) (rows : List Row) :
    filter_index f rows ⊆ Finset.range rows.length := by
  induction f using dpfIndOn with
  | hcomp op args ih =>
    intro i hi
    cases op with
    | ALL =>
      simp only [filter_index, filter_index_list_eq] at hi
      exact (mem_foldl_inter _ _ _ |>.mp hi).1
    | ANY =>
      simp only [filter_index, filter_index_list_eq] at hi
      rcases (mem_foldl_union _ _ _ |>.mp hi) with h | ⟨s, hs, h⟩
      · simp at h
      · rcases List.mem_map.mp hs with ⟨a, ha, rfl⟩
        exact ih a ha h
    | NONE =>
      simp only [filter_index, filter_index_list_eq] at hi
      exact (mem_foldl_sdiff _ _ _ |>.mp hi).1
  | hlist idx name ty vs => intro i hi; exact Finset.mem_of_mem_filter i hi
  | hrange idx name ty mv nv => intro i hi; exact Finset.mem_of_mem_filter i hi
  | hregex idx name e r => intro i hi; exact Finset.mem_of_mem_filter i hi

/-- Selecting positions of a list by a predicate on (shifted) indices
yields a sublist. -/
theorem select_sublist {α : Type} (d : α) (p : Nat → Bool) :
    ∀ (l : List α) (k : Nat),
      (((List.range l.length).filter (fun i => p (k + i))).map (fun i => l.getD i d)).Sublist l := by
  intro l
  induction l with
  | nil => intro k; simp
  | cons x t ih =>
    intro k
    have key :
        ((((List.range t.length).map Nat.succ).filter (fun i => p (k + i))).map
          (fun i => (x :: t).getD i d)) =
        (((List.range t.length).filter (fun i => p (k + 1 + i))).map
          (fun i => t.getD i d)) := by
      rw [List.filter_map, List.map_map]
      have harg : ((fun i => p (k + i)) ∘ Nat.succ) = (fun i => p (k + 1 + i)) :=
        funext fun i => congrArg p (by omega)
      rw [harg]
      apply List.map_congr_left
      intro i _
      simp [Function.comp]
    rw [List.length_cons, List.range_succ_eq_map, List.filter_cons]
    by_cases hk : p (k + 0) = true
    · rw [if_pos hk, List.map_cons, List.getD_cons_zero, key]
      exact List.Sublist.cons₂ x (ih (k + 1))
    · rw [if_neg (by simpa using hk), key]
      exact List.Sublist.cons x (ih (k + 1))

/-- The filtered rows form a sublist of the input rows, in original
order. -/
theorem filterRows_sublist (f : DPFilter) (rows : List Row) :
    (filterRows f rows).Sublist rows := by
  have h := select_sublist ([] : Row) (fun i => decide (i ∈ filter_index f rows)) rows 0
  simp only [Nat.zero_add] at h
  simpa [filterRows] using h

/-- Reflexivity of the lexicographic order. -/
theorem listCharLe_refl : ∀ as : List Char, listCharLe as as = true := by
  intro as
  induction as with
  | nil => rfl
  | cons a t ih => simp [listCharLe, ih]

/-- Connexity of the lexicographic order. -/
theorem listCharLe_false_flip : ∀ as bs : List Char,
    listCharLe as bs = false → listCharLe bs as = true := by
  intro as
  induction as with
  | nil => intro bs h; simp [listCharLe] at h
  | cons a t ih =>
    intro bs h
    cases bs with
    | nil => simp [listCharLe]
    | cons b u =>
      simp only [listCharLe] at h ⊢
      split_ifs at h ⊢ <;> first | rfl | omega | exact ih u h | simp_all

/-- Transitivity of the lexicographic order. -/
theorem listCharLe_trans : ∀ as bs cs : List Char,
    listCharLe as bs = true → listCharLe bs cs = true → listCharLe as cs = true := by
  intro as
  induction as with
  | nil => intro bs cs _ _; simp [listCharLe]
  | cons a t ih =>
    intro bs cs h1 h2
    cases bs with
    | nil => simp [listCharLe] at h1
    | cons b u =>
      cases cs with
      | nil => simp [listCharLe] at h2
      | cons c v =>
        simp only [listCharLe] at h1 h2 ⊢
        split_ifs at h1 h2 ⊢ <;>
          first | rfl | omega | exact ih u v h1 h2 | simp_all

/-- Flipping a false comparison: Python total orders are connex within a
comparison class. -/
theorem pyLe_flip {a b : PyValue} (h : pyLe a b = some false) : pyLe b a = some true := by
  cases a <;> cases b <;>
    simp only [pyLe, pyNumOf, Option.some.injEq] at h ⊢ <;>
    first
      | exact Option.noConfusion h
      | (rw [decide_eq_false_iff_not] at h
         rw [decide_eq_true_eq]
         exact le_of_not_le h)
      | exact listCharLe_false_flip _ _ h

/-- Transitivity of the boolean comparison (vacuous across comparison
classes, where pyLeB is false). -/
theorem pyLeB_trans {a b c : PyValue} (h1 : pyLeB a b = true) (h2 : pyLeB b c = true) :
    pyLeB a c = true := by
  cases a <;> cases b <;> cases c <;>
    simp only [pyLeB, pyLe, pyNumOf, Option.getD_some, Option.getD_none] at h1 h2 ⊢ <;>
    first
      | rfl
      | exact Bool.noConfusion h1
      | exact Bool.noConfusion h2
      | (rw [decide_eq_true_eq] at h1 h2 ⊢
         exact le_trans h1 h2)
      | exact listCharLe_trans _ _ _ h1 h2

/-- Reflexivity of Python equality on the modelled values. -/
theorem pyEq_refl : ∀ a : PyValue, pyEq a a = true := by
  intro a
  cases a <;> simp [pyEq, pyNumOf]

/-- On two values of one strict row type, Python equality is structural
equality. -/
theorem pyEq_typed_iff (t : DPType) {a b : PyValue}
    (ha : rowTyped t a = true) (hb : rowTyped t b = true) :
    pyEq a b = true ↔ a = b := by
  cases t <;> cases a <;> cases b <;>
    simp_all [rowTyped, pyEq, pyNumOf, Int.cast_inj] <;>
    (rename_i u v; cases u <;> cases v <;> simp)

/-- Comparability of two values of one strict row type. -/
theorem pyLe_isSome_typed (t : DPType) {a b : PyValue}
    (ha : rowTyped t a = true) (hb : rowTyped t b = true) :
    (pyLe a b).isSome = true := by
  cases t <;> cases a <;> cases b <;>
    simp_all [rowTyped, pyLe, pyNumOf]

/-- Totality of pyLeB on two values of one strict row type. -/
theorem pyLeB_total_typed (t : DPType) {a b : PyValue}
    (ha : rowTyped t a = true) (hb : rowTyped t b = true) :
    pyLeB a b = true ∨ pyLeB b a = true := by
  have hs := pyLe_isSome_typed t ha hb
  rcases ho : pyLe a b with _ | v
  · rw [ho] at hs; simp at hs
  · cases v with
    | true => exact Or.inl (by simp [pyLeB, ho])
    | false => exact Or.inr (by simp [pyLeB, pyLe_flip ho])

/-- Membership after sorted insertion. -/
theorem mem_insertSorted {x a : PyValue} : ∀ l : List PyValue,
    (x ∈ insertSorted a l ↔ x = a ∨ x ∈ l) := by
  intro l
  induction l with
  | nil => simp [insertSorted]
  | cons b t ih =>
    simp only [insertSorted]
    split_ifs with h
    · simp [List.mem_cons]
    · simp only [List.mem_cons, ih]
      tauto

/-- Sorted insertion is a permutation of consing. -/
theorem insertSorted_perm (a : PyValue) : ∀ l : List PyValue,
    (insertSorted a l).Perm (a :: l) := by
  intro l
  induction l with
  | nil => simp [insertSorted]
  | cons b t ih =>
    simp only [insertSorted]
    split_ifs with h
    · exact List.Perm.refl _
    · exact ((ih.cons b).trans (List.Perm.swap a b t))

/-- Insertion sort permutes its input. -/
theorem pySort_perm : ∀ l : List PyValue, (pySort l).Perm l := by
  intro l
  induction l with
  | nil => simp [pySort]
  | cons a t ih =>
    exact (insertSorted_perm a (pySort t)).trans (ih.cons a)

/-- Sorted insertion preserves ascending pairwise order for values of one
strict row type. -/
theorem insertSorted_pairwise (t : DPType) {a : PyValue} (ha : rowTyped t a = true) :
    ∀ l : List PyValue, (∀ x ∈ l, rowTyped t x = true) →
      l.Pairwise (fun x y => pyLeB x y = true) →
      (insertSorted a l).Pairwise (fun x y => pyLeB x y = true) := by
  intro l
  induction l with
  | nil => intro _ _; simp [insertSorted]
  | cons b u ih =>
    intro hl hp
    have hb : rowTyped t b = true := hl b (List.mem_cons_self b u)
    have hu : ∀ x ∈ u, rowTyped t x = true := fun x hx => hl x (List.mem_cons_of_mem b hx)
    rcases List.pairwise_cons.mp hp with ⟨hbu, hpu⟩
    simp only [insertSorted]
    split_ifs with h
    · refine List.pairwise_cons.mpr ⟨?_, hp⟩
      intro x hx
      rcases List.mem_cons.mp hx with rfl | hx
      · exact h
      · exact pyLeB_trans h (hbu x hx)
    · refine List.pairwise_cons.mpr ⟨?_, ih hu hpu⟩
      intro x hx
      rcases (mem_insertSorted _).mp hx with rfl | hx
      · rcases pyLeB_total_typed t ha hb with h1 | h1
        · exact absurd h1 h
        · exact h1
      · exact hbu x hx

/-- Insertion sort produces an ascending pairwise-ordered list for values
of one strict row type. -/
theorem pySort_pairwise (t : DPType) : ∀ l : List PyValue,
    (∀ x ∈ l, rowTyped t x = true) →
    (pySort l).Pairwise (fun x y => pyLeB x y = true) := by
  intro l
  induction l with
  | nil => intro _; simp [pySort]
  | cons a u ih =>
    intro hl
    have ha : rowTyped t a = true := hl a (List.mem_cons_self a u)
    have hu : ∀ x ∈ u, rowTyped t x = true := fun x hx => hl x (List.mem_cons_of_mem a hx)
    have hsorted := ih hu
    have hmem : ∀ x ∈ pySort u, rowTyped t x = true := by
      intro x hx
      exact hu x ((pySort_perm u).mem_iff.mp hx)
    exact insertSorted_pairwise t ha (pySort u) hmem hsorted

/-- Deduplicated values come from the original list. -/
theorem pyDedup_subset {x : PyValue} : ∀ l : List PyValue, x ∈ pyDedup l → x ∈ l := by
  intro l
  induction l with
  | nil => simp [pyDedup]
  | cons v t ih =>
    simp only [pyDedup]
    split_ifs with h
    · intro hx; exact List.mem_cons_of_mem v (ih hx)
    · intro hx
      rcases List.mem_cons.mp hx with rfl | hx
      · exact List.mem_cons_self _ _
      · exact List.mem_cons_of_mem v (ih hx)

/-- Every original value has a Python-equal representative among the
deduplicated values. -/
theorem pyDedup_cover {x : PyValue} : ∀ l : List PyValue, x ∈ l →
    ∃ w ∈ pyDedup l, pyEq x w = true := by
  intro l
  induction l with
  | nil => simp
  | cons v t ih =>
    intro hx
    rcases List.mem_cons.mp hx with rfl | hx
    · simp only [pyDedup]
      split_ifs with h
      · rcases List.any_eq_true.mp h with ⟨w, hw, hww⟩
        exact ⟨w, hw, hww⟩
      · exact ⟨x, List.mem_cons_self _ _, pyEq_refl x⟩
    · rcases ih hx with ⟨w, hw, hww⟩
      simp only [pyDedup]
      split_ifs with h
      · exact ⟨w, hw, hww⟩
      · exact ⟨w, List.mem_cons_of_mem v hw, hww⟩

/-- The deduplicated list holds pairwise Python-unequal values. -/
theorem pyDedup_pairwise : ∀ l : List PyValue,
    (pyDedup l).Pairwise (fun a b => pyEq a b = false) := by
  intro l
  induction l with
  | nil => simp [pyDedup]
  | cons v t ih =>
    simp only [pyDedup]
    split_ifs with h
    · exact ih
    · refine List.pairwise_cons.mpr ⟨?_, ih⟩
      intro w hw
      by_contra hne
      simp only [Bool.not_eq_false] at hne
      exact absurd (List.any_eq_true.mpr ⟨w, hw, hne⟩) (by simp_all)

/-- Parsing a rendered digit recovers its value. -/
theorem digitVal_digitChar {k : Nat} (h : k < 10) : digitVal (digitChar k) = some k := by
  interval_cases k <;> decide

/-- Month lengths never exceed 31. -/
theorem daysInMonth_le (y m : Nat) : daysInMonth y m ≤ 31 := by
  unfold daysInMonth
  split_ifs <;> norm_num

/-- Core digit-level round trip for the date grammar. -/
theorem parseDateChars_digits (y mo dd : Nat) (h1 : 1 ≤ y) (h2 : y ≤ 9999)
    (h3 : 1 ≤ mo) (h4 : mo ≤ 12) (h5 : 1 ≤ dd) (h6 : dd ≤ daysInMonth y mo) :
    parseDateChars
      [digitChar (y / 1000 % 10), digitChar (y / 100 % 10), digitChar (y / 10 % 10),
       digitChar (y % 10), '-', digitChar (mo / 10 % 10), digitChar (mo % 10), '-',
       digitChar (dd / 10 % 10), digitChar (dd % 10)] = some ⟨y, mo, dd⟩ := by
  have ten : (0 : Nat) < 10 := by norm_num
  simp only [parseDateChars, if_pos (And.intro rfl rfl),
    digitVal_digitChar (Nat.mod_lt _ ten)]
  have hY : 1000 * (y / 1000 % 10) + 100 * (y / 100 % 10) + 10 * (y / 10 % 10) + y % 10 = y := by
    omega
  have hMO : 10 * (mo / 10 % 10) + mo % 10 = mo := by omega
  have hDM := daysInMonth_le y mo
  have hDD : 10 * (dd / 10 % 10) + dd % 10 = dd := by omega
  rw [hY, hMO, hDD]
  have hcond : 1 ≤ y ∧ y ≤ 9999 ∧ 1 ≤ mo ∧ mo ≤ 12 ∧ 1 ≤ dd ∧ dd ≤ daysInMonth y mo :=
    ⟨h1, h2, h3, h4, h5, h6⟩
  exact if_pos hcond

/-- Core digit-level round trip for the HH:MM:SS grammar. -/
theorem parseTimeChars_digits (hh mm ss : Nat) (h1 : hh ≤ 23) (h2 : mm ≤ 59) (h3 : ss ≤ 59) :
    parseTimeChars
      [digitChar (hh / 10 % 10), digitChar (hh % 10), ':', digitChar (mm / 10 % 10),
       digitChar (mm % 10), ':', digitChar (ss / 10 % 10), digitChar (ss % 10)] =
      some ⟨hh, mm, ss⟩ := by
  have ten : (0 : Nat) < 10 := by norm_num
  simp only [parseTimeChars, if_pos (And.intro rfl rfl),
    digitVal_digitChar (Nat.mod_lt _ ten)]
  have hH : 10 * (hh / 10 % 10) + hh % 10 = hh := by omega
  have hM : 10 * (mm / 10 % 10) + mm % 10 = mm := by omega
  have hS : 10 * (ss / 10 % 10) + ss % 10 = ss := by omega
  rw [hH, hM, hS]
  have hcond : hh ≤ 23 ∧ mm ≤ 59 ∧ ss ≤ 59 := ⟨h1, h2, h3⟩
  exact if_pos hcond

/-- Parsing the rendered ISO form of a valid date recovers the date. -/
theorem parseIsoDate_isoDate {d : DateV} (h : validDate d = true) :
    parseIsoDate (isoDate d) = some d := by
  obtain ⟨y, mo, dd⟩ := d
  simp only [validDate, decide_eq_true_eq] at h
  obtain ⟨h1, h2, h3, h4, h5, h6⟩ := h
  have core := parseDateChars_digits y mo dd h1 h2 h3 h4 h5 h6
  simpa [parseIsoDate, isoDate, isoDateChars, d4chars, d2chars] using core

/-- Parsing the rendered ISO form of a valid time recovers the time. -/
theorem parseIsoTime_isoTime {t : TimeV} (h : validTime t = true) :
    parseIsoTime (isoTime t) = some t := by
  obtain ⟨hh, mm, ss⟩ := t
  simp only [validTime, decide_eq_true_eq] at h
  obtain ⟨h1, h2, h3⟩ := h
  have core := parseTimeChars_digits hh mm ss h1 h2 h3
  simpa [parseIsoTime, isoTime, isoTimeChars, d2chars] using core

/-- Parsing the rendered ISO form of a valid datetime recovers it. -/
theorem parseIsoDateTime_isoDateTime {dt : DateTimeV} (h : validDateTime dt = true) :
    parseIsoDateTime (isoDateTime dt) = some dt := by
  obtain ⟨y, mo, dd, hh, mm, ss⟩ := dt
  simp only [validDateTime, Bool.and_eq_true, validDate, validTime, decide_eq_true_eq] at h
  obtain ⟨⟨h1, h2, h3, h4, h5, h6⟩, hh1, hh2, hh3⟩ := h
  have cored := parseDateChars_digits y mo dd h1 h2 h3 h4 h5 h6
  have coret := parseTimeChars_digits hh mm ss hh1 hh2 hh3
  simp only [parseIsoDateTime, isoDateTime, isoDateChars, isoTimeChars, d4chars, d2chars,
    List.cons_append, List.nil_append, String.data]
  simp only [parseDateTimeChars]
  rw [show [digitChar (y / 1000 % 10), digitChar (y / 100 % 10), digitChar (y / 10 % 10),
        digitChar (y % 10), '-', digitChar (mo / 10 % 10), digitChar (mo % 10), '-',
        digitChar (dd / 10 % 10), digitChar (dd % 10)] =
      [digitChar (y / 1000 % 10), digitChar (y / 100 % 10), digitChar (y / 10 % 10),
        digitChar (y % 10), '-', digitChar (mo / 10 % 10), digitChar (mo % 10), '-',
        digitChar (dd / 10 % 10), digitChar (dd % 10)] from rfl]
  rw [cored, coret]

/-- Conversion is the identity on a value that already has the strict row
type of the target. -/
theorem rowTyped_convert_id (t : DPType) {v : PyValue} (h : rowTyped t v = true) :
    _convert_to_type t v = .ok v := by
  cases t <;> cases v <;> simp_all [rowTyped, _convert_to_type]

/-- Serialize-then-recompile round trip for a single stored value of the
given column type: rendering to the specification form and converting back
recovers the value exactly. -/
theorem convert_output_roundtrip (t : DPType) {v : PyValue} (h : typedOK t v = true) :
    ∃ u, _convert_to_output_string t v = .ok u ∧ _convert_to_type t u = .ok v := by
  cases t <;> cases v <;> simp_all [typedOK]
  case string.pstr s => exact ⟨.pstr s, rfl, rfl⟩
  case number.pint n => exact ⟨.pint n, rfl, rfl⟩
  case number.pfloat q => exact ⟨.pfloat q, rfl, rfl⟩
  case number.pbool b => exact ⟨.pbool b, rfl, rfl⟩
  case boolean.pbool b => exact ⟨.pbool b, rfl, rfl⟩
  case date.pdate d =>
    refine ⟨.pstr (isoDate d), rfl, ?_⟩
    simp [_convert_to_type, parseIsoDate_isoDate h]
  case datetime.pdatetime dt =>
    refine ⟨.pstr (isoDateTime dt), rfl, ?_⟩
    simp [_convert_to_type, parseIsoDateTime_isoDateTime h]
  case timeofday.ptime tm =>
    refine ⟨.pstr (isoTime tm), rfl, ?_⟩
    simp [_convert_to_type, parseIsoTime_isoTime h]

/-- List version of the serialize-then-recompile value round trip. -/
theorem convert_output_roundtrip_list (t : DPType) : ∀ {vs : List PyValue},
    vs.all (typedOK t) = true →
    ∃ us, _convert_list_to_string t vs = .ok us ∧ _convert_list_to_type t us = .ok vs := by
  intro vs
  induction vs with
  | nil => intro _; exact ⟨[], rfl, rfl⟩
  | cons v rest ih =>
    intro h
    rw [List.all_cons, Bool.and_eq_true] at h
    rcases convert_output_roundtrip t h.1 with ⟨u, hu1, hu2⟩
    rcases ih h.2 with ⟨us, hus1, hus2⟩
    refine ⟨u :: us, ?_, ?_⟩
    · simp only [_convert_list_to_string, hu1, hus1]
    · simp only [_convert_list_to_type, hu2, hus2]

/-- Comparability of two values of one typedOK type. -/
theorem typedOK_comparable (t : DPType) {a b : PyValue}
    (ha : typedOK t a = true) (hb : typedOK t b = true) : (pyLe a b).isSome = true := by
  cases t <;> cases a <;> cases b <;> simp_all [typedOK, pyLe, pyNumOf]

/-- The serialized forms of two typedOK values of one column type are
mutually comparable, so check_valid_spec accepts the serialized range. -/
theorem output_comparable (t : DPType) {a b u w : PyValue}
    (ha : typedOK t a = true) (hb : typedOK t b = true)
    (hu : _convert_to_output_string t a = .ok u)
    (hw : _convert_to_output_string t b = .ok w) : (pyGt u w).isSome = true := by
  cases t <;> cases a <;> cases b <;>
    simp only [typedOK] at ha hb <;>
    first
      | exact Bool.noConfusion ha
      | exact Bool.noConfusion hb
      | (simp only [_convert_to_output_string, Except.ok.injEq] at hu hw
         subst hu
         subst hw
         simp [pyGt, pyLt, pyNumOf])

/-- Boolean comparison true means the underlying comparison succeeded. -/
theorem pyLeB_true_some {a b : PyValue} (h : pyLeB a b = true) : pyLe a b = some true := by
  unfold pyLeB at h
  rcases ho : pyLe a b with _ | v
  · rw [ho] at h; simp at h
  · rw [ho] at h; simp at h; rw [h]

/-- Compilation implies the specification passed validation. -/
theorem compile_check {s : FilterSpec} {cols : List Column} {f : DPFilter}
    (h : compile s cols = .ok f) : check_valid_spec s = .ok () := by
  cases s <;>
    (simp only [compile] at h
     split at h
     · exact absurd h (by simp)
     · rename_i u heq
       cases u
       exact heq)

/-- Under a passed validation, compile agrees with its operator
dispatch. -/
theorem compile_eq_core {s : FilterSpec} {cols : List Column}
    (hc : check_valid_spec s = .ok ()) : compile s cols = compile_core s cols := by
  cases s <;> simp only [compile, compile_core, hc]

/-- Validation of a serialized argument list follows from its successful
compilation. -/
theorem compile_list_check {cols : List Column} : ∀ {ss : List FilterSpec} {fs : List DPFilter},
    compile_list ss cols = .ok fs → check_valid_spec_list ss = .ok () := by
  intro ss
  induction ss with
  | nil => intro fs _; rfl
  | cons s rest ih =>
    intro fs h
    simp only [compile_list] at h
    split at h
    · exact absurd h (by simp)
    · rename_i f heq
      split at h
      · rename_i fs2 heq2
        simp only [check_valid_spec_list, compile_check heq]
        exact ih heq2
      · exact absurd h (by simp)

/-- Inversion of compilation at a compound node. -/
theorem compile_compound_inv {op : CompOp} {args : List FilterSpec} {cols : List Column}
    {f : DPFilter} (h : compile (.compound op args) cols = .ok f) :
    ∃ fs, compile_list args cols = .ok fs ∧ f = .compound op fs := by
  rw [compile_eq_core (compile_check h)] at h
  simp only [compile_core] at h
  split at h
  · rename_i fs heq
    simp only [Except.ok.injEq] at h
    exact ⟨fs, heq, h.symm⟩
  · exact absurd h (by simp)

/-- Inversion of compilation at an IN_LIST node. -/
theorem compile_in_list_inv {name : String} {vs : List PyValue} {cols : List Column}
    {f : DPFilter} (h : compile (.in_list name vs) cols = .ok f) :
    ∃ idx ty vl, resolve_column cols name = .ok (idx, ty) ∧
      _convert_list_to_type ty vs = .ok vl ∧ f = .in_list idx name ty vl := by
  rw [compile_eq_core (compile_check h)] at h
  simp only [compile_core] at h
  split at h
  · exact absurd h (by simp)
  · rename_i idx ty heq
    split at h
    · rename_i vl heq2
      simp only [Except.ok.injEq] at h
      exact ⟨idx, ty, vl, heq, heq2, h.symm⟩
    · exact absurd h (by simp)

/-- Inversion of compilation at an IN_RANGE node. -/
theorem compile_in_range_inv {name : String} {mx mn : PyValue} {cols : List Column}
    {f : DPFilter} (h : compile (.in_range name mx mn) cols = .ok f) :
    ∃ idx ty a b c, resolve_column cols name = .ok (idx, ty) ∧
      _convert_to_type ty mx = .ok a ∧ _convert_to_type ty mn = .ok b ∧
      pyLe b a = some c ∧
      f = .in_range idx name ty (if c then a else b) (if c then b else a) := by
  rw [compile_eq_core (compile_check h)] at h
  simp only [compile_core] at h
  split at h
  · exact absurd h (by simp)
  · rename_i idx ty heq
    split at h
    · exact absurd h (by simp)
    · rename_i a heqa
      split at h
      · exact absurd h (by simp)
      · rename_i b heqb
        split at h
        · exact absurd h (by simp)
        · rename_i c heqc
          simp only [Except.ok.injEq] at h
          exact ⟨idx, ty, a, b, c, heq, heqa, heqb, heqc, h.symm⟩

/-- Inversion of compilation at a REGEX_MATCH node. -/
theorem compile_regex_inv {name : String} {expression : PyValue} {cols : List Column}
    {f : DPFilter} (h : compile (.regex_match name expression) cols = .ok f) :
    ∃ idx s r, resolve_column cols name = .ok (idx, DPType.string) ∧
      expression = .pstr s ∧ parseRegex s = some r ∧ f = .regex_match idx name s r := by
  rw [compile_eq_core (compile_check h)] at h
  simp only [compile_core] at h
  split at h
  · exact absurd h (by simp)
  · rename_i idx ty heq
    by_cases hty : ty = DPType.string
    · subst hty
      rw [if_pos rfl] at h
      cases expression with
      | pstr s =>
        split at h
        · rename_i r heqr
          injection heqr with heqs
          subst heqs
          split at h
          · rename_i re heqre
            simp only [Except.ok.injEq] at h
            exact ⟨idx, s, re, heq, rfl, heqre, h.symm⟩
          · exact absurd h (by simp)
        · rename_i hcontra
          exact (hcontra s rfl).elim
      | pint n => exact absurd h (by simp)
      | pfloat q => exact absurd h (by simp)
      | pbool b => exact absurd h (by simp)
      | pdate d => exact absurd h (by simp)
      | pdatetime dt => exact absurd h (by simp)
      | ptime tm => exact absurd h (by simp)
      | pnone => exact absurd h (by simp)
    · rw [if_neg hty] at h
      exact absurd h (by simp)

/-- Compiled argument lists inherit the structural invariant pointwise. -/
theorem compile_struct_list {cols : List Column} : ∀ {ss : List FilterSpec} {fs : List DPFilter},
    (∀ s ∈ ss, ∀ f, compile s cols = .ok f → filterStruct cols f = true) →
    compile_list ss cols = .ok fs → filterStruct_list cols fs = true := by
  intro ss
  induction ss with
  | nil =>
    intro fs _ h
    simp only [compile_list, Except.ok.injEq] at h
    rw [← h]; rfl
  | cons s rest ih =>
    intro fs hp h
    simp only [compile_list] at h
    split at h
    · exact absurd h (by simp)
    · rename_i f heq
      split at h
      · rename_i fs2 heq2
        simp only [Except.ok.injEq] at h
        rw [← h]
        simp only [filterStruct_list, Bool.and_eq_true]
        exact ⟨hp s (List.mem_cons_self s rest) f heq,
               ih (fun x hx g hg => hp x (List.mem_cons_of_mem s hx) g hg) heq2⟩
      · exact absurd h (by simp)

/-- Every filter produced by compile satisfies the structural invariant
relative to its schema, in particular the sorted-bounds invariant of
IN_RANGE. -/
theorem compile_struct {cols : List Column} : ∀ {s : FilterSpec} {f : DPFilter},
    compile s cols = .ok f → filterStruct cols f = true := by
  have main : ∀ s : FilterSpec, ∀ f : DPFilter,
      compile s cols = .ok f → filterStruct cols f = true := by
    intro s
    induction s using fsIndOn with
    | hcomp op args ih =>
      intro f h
      rcases compile_compound_inv h with ⟨fs, hl, rfl⟩
      simp only [filterStruct]
      exact compile_struct_list (fun x hx g hg => ih x hx g hg) hl
    | hlist name vs =>
      intro f h
      rcases compile_in_list_inv h with ⟨idx, ty, vl, hr, _, rfl⟩
      simp [filterStruct, hr]
    | hrange name mx mn =>
      intro f h
      rcases compile_in_range_inv h with ⟨idx, ty, a, b, c, hr, _, _, hle, rfl⟩
      have hmm : pyLeB (if c then b else a) (if c then a else b) = true := by
        cases c with
        | true => simp [pyLeB, hle]
        | false => simp [pyLeB, pyLe_flip hle]
      simp [filterStruct, hr, hmm]
    | hregex name e =>
      intro f h
      rcases compile_regex_inv h with ⟨idx, s, r, hr, rfl, hp, rfl⟩
      simp [filterStruct, hr, hp]
  intro s f h
  exact main s f h

/-- Pointwise round trip extended to compound argument lists. -/
theorem roundtrip_list {cols : List Column} : ∀ (args : List DPFilter),
    (∀ a ∈ args, filterStruct cols a = true → filterWF a = true →
      ∃ s, to_filter_spec a = .ok s ∧ compile s cols = .ok a) →
    filterStruct_list cols args = true → filterWF_list args = true →
    ∃ ss, to_filter_spec_list args = .ok ss ∧ compile_list ss cols = .ok args := by
  intro args
  induction args with
  | nil => intro _ _ _; exact ⟨[], by simp [to_filter_spec_list], by simp [compile_list]⟩
  | cons a rest ih =>
    intro hp hstruct hwf
    simp only [filterStruct_list, Bool.and_eq_true] at hstruct
    simp only [filterWF_list, Bool.and_eq_true] at hwf
    rcases hp a (List.mem_cons_self a rest) hstruct.1 hwf.1 with ⟨s, hs1, hs2⟩
    rcases ih (fun x hx => hp x (List.mem_cons_of_mem a hx)) hstruct.2 hwf.2 with ⟨ss, hl1, hl2⟩
    refine ⟨s :: ss, ?_, ?_⟩
    · simp only [to_filter_spec_list, hs1, hl1]
    · simp only [compile_list, hs2, hl2]

/-- Serialize-then-recompile round trip for any structurally sound,
well-typed compiled filter: to_filter_spec succeeds and compiling its
output reproduces the very same filter. -/
theorem filter_roundtrip {cols : List Column} : ∀ {f : DPFilter},
    filterStruct cols f = true → filterWF f = true →
    ∃ s, to_filter_spec f = .ok s ∧ compile s cols = .ok f := by
  have main : ∀ f : DPFilter, filterStruct cols f = true → filterWF f = true →
      ∃ s, to_filter_spec f = .ok s ∧ compile s cols = .ok f := by
    intro f
    induction f using dpfIndOn with
    | hcomp op args ih =>
      intro hstruct hwf
      simp only [filterStruct] at hstruct
      simp only [filterWF] at hwf
      rcases roundtrip_list args ih hstruct hwf with ⟨ss, hl1, hl2⟩
      refine ⟨.compound op ss, ?_, ?_⟩
      · simp only [to_filter_spec, hl1]
      · have hc : check_valid_spec (FilterSpec.compound op ss) = .ok () := by
          simp only [check_valid_spec]
          exact compile_list_check hl2
        rw [compile_eq_core hc]
        simp only [compile_core, hl2]
    | hlist idx name ty vs =>
      intro hstruct hwf
      simp only [filterStruct] at hstruct
      simp only [filterWF] at hwf
      rcases hr : resolve_column cols name with e | p
      · rw [hr] at hstruct; simp at hstruct
      · obtain ⟨i, t⟩ := p
        rw [hr] at hstruct
        simp only [Bool.and_eq_true, decide_eq_true_eq] at hstruct
        obtain ⟨rfl, rfl⟩ := hstruct
        rcases convert_output_roundtrip_list t hwf with ⟨us, hu1, hu2⟩
        refine ⟨.in_list name us, ?_, ?_⟩
        · simp only [to_filter_spec, hu1]
        · have hc : check_valid_spec (FilterSpec.in_list name us) = .ok () := by
            simp [check_valid_spec]
          rw [compile_eq_core hc]
          simp only [compile_core, hr, hu2]
    | hrange idx name ty mv nv =>
      intro hstruct hwf
      simp only [filterStruct] at hstruct
      simp only [filterWF, Bool.and_eq_true] at hwf
      obtain ⟨hwx, hwn⟩ := hwf
      rcases hr : resolve_column cols name with e | p
      · rw [hr] at hstruct; simp at hstruct
      · obtain ⟨i, t⟩ := p
        rw [hr] at hstruct
        simp only [Bool.and_eq_true, decide_eq_true_eq] at hstruct
        obtain ⟨⟨rfl, rfl⟩, hle⟩ := hstruct
        rcases convert_output_roundtrip t hwx with ⟨ux, hux1, hux2⟩
        rcases convert_output_roundtrip t hwn with ⟨un, hun1, hun2⟩
        refine ⟨.in_range name ux un, ?_, ?_⟩
        · simp only [to_filter_spec, hux1, hun1]
        · have hcomp := output_comparable t hwx hwn hux1 hun1
          have hc : check_valid_spec (FilterSpec.in_range name ux un) = .ok () := by
            simp only [check_valid_spec]
            rcases hg : pyGt ux un with _ | v
            · rw [hg] at hcomp; simp at hcomp
            · rfl
          rw [compile_eq_core hc]
          simp only [compile_core, hr, hux2, hun2, pyLeB_true_some hle]
          simp
    | hregex idx name e r =>
      intro hstruct _
      simp only [filterStruct] at hstruct
      rcases hr : resolve_column cols name with e2 | p
      · rw [hr] at hstruct; simp at hstruct
      · obtain ⟨i, t⟩ := p
        rw [hr] at hstruct
        simp only [Bool.and_eq_true, decide_eq_true_eq] at hstruct
        obtain ⟨⟨rfl, rfl⟩, hp⟩ := hstruct
        refine ⟨.regex_match name (.pstr e), by simp [to_filter_spec], ?_⟩
        have hc : check_valid_spec (FilterSpec.regex_match name (.pstr e)) = .ok () := by
          simp only [check_valid_spec, hp]
        rw [compile_eq_core hc]
        simp only [compile_core, hr, if_pos rfl, hp]
        simp
  intro f h1 h2
  exact main f h1 h2


/-- Conversion is the identity on a list of values of the strict row
type. -/
theorem rowTyped_convert_list_id (t : DPType) : ∀ {l : List PyValue},
    (∀ v ∈ l, rowTyped t v = true) → _convert_list_to_type t l = .ok l := by
  intro l
  induction l with
  | nil => intro _; rfl
  | cons v rest ih =>
    intro h
    have hv := rowTyped_convert_id t (h v (List.mem_cons_self v rest))
    have hrest := ih (fun x hx => h x (List.mem_cons_of_mem v hx))
    simp only [_convert_list_to_type, hv, hrest]

/-- A name absent from a list is never found by findIdx?. -/
theorem findIdx_eq_none_of_not_mem {name : String} : ∀ {l : List String},
    name ∉ l → l.findIdx? (fun n => n = name) = none := by
  intro l
  induction l with
  | nil => intro _; rfl
  | cons x rest ih =>
    intro h
    have hx : ¬(x = name) := fun hc => h (hc ▸ List.mem_cons_self x rest)
    have hrest := ih (fun hc => h (List.mem_cons_of_mem x hc))
    simp [List.findIdx?_cons, hx, hrest, List.findIdx?_succ]

/-! Claim theorems. -/

/-- C1: for every compiled filter and every row list, a compound node
evaluates as follows: ALL is the intersection of its children index sets
(the universal set of all row indices when it has zero children), ANY is
the union of its children index sets (the empty set with zero children),
and NONE is the universal set minus the union of the children index sets
(the universal set with zero children). -/
theorem spec_c1 (args : List DPFilter) (rows : List Row) :
    (∀ i, i ∈ filter_index (.compound .ALL args) rows ↔
        i ∈ Finset.range rows.length ∧ ∀ a ∈ args, i ∈ filter_index a rows) ∧
    (∀ i, i ∈ filter_index (.compound .ANY args) rows ↔
        ∃ a ∈ args, i ∈ filter_index a rows) ∧
    (∀ i, i ∈ filter_index (.compound .NONE args) rows ↔
        i ∈ Finset.range rows.length ∧ ∀ a ∈ args, i ∉ filter_index a rows) ∧
    (args ≠ [] → ∀ i, (i ∈ filter_index (.compound .ALL args) rows ↔
        ∀ a ∈ args, i ∈ filter_index a rows)) ∧
    (filter_index (.compound .ALL []) rows = Finset.range rows.length) ∧
    (filter_index (.compound .ANY []) rows = ∅) ∧
    (filter_index (.compound .NONE []) rows = Finset.range rows.length) := by
  have hall : ∀ i, i ∈ filter_index (.compound .ALL args) rows ↔
      i ∈ Finset.range rows.length ∧ ∀ a ∈ args, i ∈ filter_index a rows := by
    intro i
    simp only [filter_index, filter_index_list_eq, mem_foldl_inter, List.mem_map]
    constructor
    · rintro ⟨h1, h2⟩
      exact ⟨h1, fun a ha => h2 _ ⟨a, ha, rfl⟩⟩
    · rintro ⟨h1, h2⟩
      exact ⟨h1, by rintro s ⟨a, ha, rfl⟩; exact h2 a ha⟩
  have hany : ∀ i, i ∈ filter_index (.compound .ANY args) rows ↔
      ∃ a ∈ args, i ∈ filter_index a rows := by
    intro i
    simp only [filter_index, filter_index_list_eq, mem_foldl_union, List.mem_map]
    constructor
    · rintro (h | ⟨s, ⟨a, ha, rfl⟩, h2⟩)
      · exact absurd h (Finset.not_mem_empty i)
      · exact ⟨a, ha, h2⟩
    · rintro ⟨a, ha, h2⟩
      exact Or.inr ⟨_, ⟨a, ha, rfl⟩, h2⟩
  have hnone : ∀ i, i ∈ filter_index (.compound .NONE args) rows ↔
      i ∈ Finset.range rows.length ∧ ∀ a ∈ args, i ∉ filter_index a rows := by
    intro i
    simp only [filter_index, filter_index_list_eq, mem_foldl_sdiff, List.mem_map]
    constructor
    · rintro ⟨h1, h2⟩
      exact ⟨h1, fun a ha => h2 _ ⟨a, ha, rfl⟩⟩
    · rintro ⟨h1, h2⟩
      exact ⟨h1, by rintro s ⟨a, ha, rfl⟩; exact h2 a ha⟩
  refine ⟨hall, hany, hnone, ?_, ?_, ?_, ?_⟩
  · intro hne i
    rw [hall i]
    constructor
    · exact And.right
    · intro h2
      rcases List.exists_mem_of_ne_nil args hne with ⟨a0, ha0⟩
      exact ⟨filter_index_subset a0 rows (h2 a0 ha0), h2⟩
  · simp [filter_index, filter_index_list]
  · simp [filter_index, filter_index_list]
  · simp [filter_index, filter_index_list]

/-- C1 witness: the intersection characterization at a concrete
single-child ALL node, and the universal set for a zero-child ALL node
over two rows. -/
theorem spec_c1_witness :
    (∀ i, i ∈ filter_index (.compound .ALL [DPFilter.in_list 0 "x" .number [.pint 1]])
        [[PyValue.pint 1], [.pint 2]] ↔
      ∀ a ∈ [DPFilter.in_list 0 "x" .number [.pint 1]],
        i ∈ filter_index a [[PyValue.pint 1], [.pint 2]]) ∧
    filter_index (DPFilter.compound .ALL []) [[PyValue.pint 1], [.pint 2]] = Finset.range 2 :=
  ⟨(spec_c1 [DPFilter.in_list 0 "x" .number [.pint 1]] [[PyValue.pint 1], [.pint 2]]).2.2.2.1
      (by decide),
   (spec_c1 [] [[PyValue.pint 1], [.pint 2]]).2.2.2.2.1⟩

/-- C3: a compiled REGEX_MATCH filter selects exactly the row indices
whose full column value matches the compiled expression anchored at both
ends; in particular the expression foo does not match the value foobar,
while it does match foo. -/
theorem spec_c3 :
    (∀ (idx : Nat) (nm e : String) (r : RE) (rows : List Row) (i : Nat),
        i ∈ filter_index (.regex_match idx nm e r) rows ↔
          i < rows.length ∧ pyFullMatchB r (row_value rows i idx) = true) ∧
    (∃ r, parseRegex "foo" = some r ∧ reFullMatch r "foo" = true ∧
        reFullMatch r "foobar" = false) ∧
    ((compile (.regex_match "name" (.pstr "foo")) [⟨"name", .string⟩]).map
        (fun f => filter_index f [[.pstr "foobar"], [.pstr "foo"]]) = .ok {1}) := by
  refine ⟨?_, ?_, ?_⟩
  · intro idx nm e r rows i
    simp [filter_index, Finset.mem_filter, Finset.mem_range]
  · exact ⟨.cat (.lit 'f') (.cat (.lit 'o') (.cat (.lit 'o') .eps)), by decide, by decide,
      by decide⟩
  · decide

/-- C10: for every compiled filter, filter_index returns a subset of the
universal index set of the rows, and filter returns a sublist of the rows
in their original order. -/
theorem spec_c10 (f : DPFilter) (rows : List Row) :
    filter_index f rows ⊆ Finset.range rows.length ∧ (filterRows f rows).Sublist rows :=
  ⟨filter_index_subset f rows, filterRows_sublist f rows⟩

/-- C2: a compiled IN_RANGE filter always carries min_val below or equal
to max_val, selects exactly the row indices whose column value lies
between the two bounds inclusively, and when the specification supplies
min_val greater than max_val the constructor silently swaps the bounds
and succeeds instead of raising. -/
theorem spec_c2 (cols : List Column) (col : String) (maxJ minJ : PyValue) :
    (∀ f, compile (.in_range col maxJ minJ) cols = .ok f →
      ∃ idx t mv nv, f = .in_range idx col t mv nv ∧ pyLeB nv mv = true ∧
        ∀ rows i, i ∈ filter_index f rows ↔
          i < rows.length ∧ pyLeB (row_value rows i idx) mv = true ∧
            pyLeB nv (row_value rows i idx) = true) ∧
    (∀ idx t mv nv, resolve_column cols col = .ok (idx, t) →
      _convert_to_type t maxJ = .ok mv → _convert_to_type t minJ = .ok nv →
      (pyGt maxJ minJ).isSome = true → pyLe nv mv = some false →
      compile (.in_range col maxJ minJ) cols = .ok (.in_range idx col t nv mv)) := by
  constructor
  · intro f h
    rcases compile_in_range_inv h with ⟨idx, ty, a, b, c, hr, _, _, hle, rfl⟩
    have hmm : pyLeB (if c then b else a) (if c then a else b) = true := by
      cases c with
      | true => simp [pyLeB, hle]
      | false => simp [pyLeB, pyLe_flip hle]
    refine ⟨idx, ty, (if c then a else b), (if c then b else a), rfl, hmm, ?_⟩
    intro rows i
    simp [filter_index, Finset.mem_filter, Finset.mem_range, Bool.and_eq_true, and_assoc]
  · intro idx t mv nv hr hmx hmn hcomp hswap
    have hc : check_valid_spec (FilterSpec.in_range col maxJ minJ) = .ok () := by
      simp only [check_valid_spec]
      rcases hg : pyGt maxJ minJ with _ | v
      · rw [hg] at hcomp; simp at hcomp
      · rfl
    rw [compile_eq_core hc]
    simp only [compile_core, hr, hmx, hmn, hswap]
    simp

/-- C4 counterexample: a filter specification that is valid for the
schema and compiles (IN_LIST with the integer value 5 under a date
column coerces the value to Python None) but whose serialization with
to_filter_spec raises AttributeError instead of producing a
specification.  The stated round-trip law therefore fails for it. -/
theorem spec_c4_counterexample :
    compile (.in_list "d" [.pint 5]) [⟨"d", .date⟩] = .ok (.in_list 0 "d" .date [.pnone]) ∧
    to_filter_spec (.in_list 0 "d" .date [.pnone]) = .error (.pyExc .attributeError) :=
  ⟨by decide, by decide⟩

/-- C4 (amended): for every filter specification that compiles to a
filter whose coerced stored values actually have their column domain
type (which excludes exactly the None values a date-family coercion can
store), to_filter_spec succeeds and recompiling its output against the
same schema yields a filter that evaluates to the same index set on every
row list; indeed it is the same filter. -/
theorem spec_c4 (s : FilterSpec) (cols : List Column) (f : DPFilter)
    (hc : compile s cols = .ok f) (hwf : filterWF f = true) :
    ∃ sp f2, to_filter_spec f = .ok sp ∧ compile sp cols = .ok f2 ∧
      ∀ rows, filter_index f2 rows = filter_index f rows := by
  rcases filter_roundtrip (compile_struct hc) hwf with ⟨sp, h1, h2⟩
  exact ⟨sp, f, h1, h2, fun rows => rfl⟩

/-- C4 witness: a compound specification over string, number and date
columns (with swapped numeric bounds and ISO date bounds) compiles,
serializes and recompiles to an identically evaluating filter. -/
theorem spec_c4_witness :
    ∃ sp f2,
      to_filter_spec (DPFilter.compound .ALL
        [.in_range 1 "age" .number (.pint 24) (.pint 21),
         .in_range 2 "d" .date (.pdate ⟨2023, 5, 1⟩) (.pdate ⟨2022, 1, 31⟩)]) = .ok sp ∧
      compile sp [⟨"name", .string⟩, ⟨"age", .number⟩, ⟨"d", .date⟩] = .ok f2 ∧
      ∀ rows, filter_index f2 rows =
        filter_index (DPFilter.compound .ALL
          [.in_range 1 "age" .number (.pint 24) (.pint 21),
           .in_range 2 "d" .date (.pdate ⟨2023, 5, 1⟩) (.pdate ⟨2022, 1, 31⟩)]) rows :=
  spec_c4
    (.compound .ALL [.in_range "age" (.pint 21) (.pint 24),
      .in_range "d" (.pstr "2023-05-01") (.pstr "2022-01-31")])
    [⟨"name", .string⟩, ⟨"age", .number⟩, ⟨"d", .date⟩]
    (DPFilter.compound .ALL
      [.in_range 1 "age" .number (.pint 24) (.pint 21),
       .in_range 2 "d" .date (.pdate ⟨2023, 5, 1⟩) (.pdate ⟨2022, 1, 31⟩)])
    (by decide) (by decide)

/-- C2 witness: the spec example ages [21, 24, 20] with the swapped pair
min_val = 24, max_val = 21 compiles without error to the filter with
bounds 21 and 24 and selects exactly indices 0 and 1. -/
theorem spec_c2_witness :
    compile (.in_range "age" (.pint 21) (.pint 24)) [⟨"age", .number⟩] =
      .ok (.in_range 0 "age" .number (.pint 24) (.pint 21)) ∧
    filter_index (.in_range 0 "age" .number (.pint 24) (.pint 21))
      [[.pint 21], [.pint 24], [.pint 20]] = {0, 1} :=
  ⟨(spec_c2 [⟨"age", .number⟩] "age" (.pint 21) (.pint 24)).2 0 .number (.pint 21) (.pint 24)
      (by decide) (by decide) (by decide) (by decide) (by decide),
   by decide⟩

/-- C5 counterexample: the claim maps every input other than native
booleans and recognized truthy strings to False, but Python integers are
converted through the int branch: _convert_to_type maps the integer 1 to
True, and the utils convert_to_type maps every nonzero integer (such as
2) to True. -/
theorem spec_c5_counterexample :
    _convert_to_type .boolean (.pint 1) = .ok (.pbool true) ∧
    convert_to_type .boolean (.pint 2) = .ok (.pbool true) ∧
    convert_to_type .boolean (.pfloat ⟨5, 2, by decide, by decide⟩) = .ok (.pbool true) :=
  ⟨by decide, by decide, by decide⟩

/-- C5 (amended): coercion to the Boolean domain type never raises:
native booleans pass through, recognized truthy strings map to True and
all other strings to False; numbers go through the numeric branches (the
integer 1 maps to True in the data_plane_table variant, which maps every
float to False, while any nonzero integer or float maps to True in the
data_plane_utils variant); and every remaining input yields False rather
than an error. -/
theorem spec_c5 (v : PyValue) :
    (∃ b1, _convert_to_type .boolean v = .ok (.pbool b1)) ∧
    (∃ b2, convert_to_type .boolean v = .ok (.pbool b2)) ∧
    (∀ b, v = .pbool b →
      _convert_to_type .boolean v = .ok (.pbool b) ∧
      convert_to_type .boolean v = .ok (.pbool b)) ∧
    (∀ s, v = .pstr s → s ∈ truthyStringsTable →
      _convert_to_type .boolean v = .ok (.pbool true)) ∧
    (∀ s, v = .pstr s → s ∉ truthyStringsTable →
      _convert_to_type .boolean v = .ok (.pbool false)) ∧
    (∀ s, v = .pstr s → s ∈ truthyStringsUtils →
      convert_to_type .boolean v = .ok (.pbool true)) ∧
    (∀ s, v = .pstr s → s ∉ truthyStringsUtils →
      convert_to_type .boolean v = .ok (.pbool false)) ∧
    (∀ n, v = .pint n →
      _convert_to_type .boolean v = .ok (.pbool (decide (n = 1))) ∧
      convert_to_type .boolean v = .ok (.pbool (decide (n ≠ 0)))) ∧
    (∀ q, v = .pfloat q →
      _convert_to_type .boolean v = .ok (.pbool false) ∧
      convert_to_type .boolean v = .ok (.pbool (decide (q ≠ 0)))) ∧
    ((∀ s, v ≠ .pstr s) → (∀ n, v ≠ .pint n) → (∀ q, v ≠ .pfloat q) →
      (∀ b, v ≠ .pbool b) →
      _convert_to_type .boolean v = .ok (.pbool false) ∧
      convert_to_type .boolean v = .ok (.pbool false)) := by
  cases v <;>
    simp [_convert_to_type, convert_to_type, pyTypeMatches, List.elem_iff] <;>
    tauto

/-- C6: coercing a string that is not valid ISO-8601 for the target type
to the Date, DateTime or TimeOfDay domain type raises
InvalidDataException, in both the data_plane_table and data_plane_utils
conversion functions (the utils variant parses date strings through the
datetime grammar and falls back from the time grammar to the datetime
grammar before failing). -/
theorem spec_c6 (s : String) :
    (parseIsoDate s = none →
      ∃ m, _convert_to_type .date (.pstr s) = .error (.invalidData m)) ∧
    (parseIsoDateTime s = none →
      ∃ m, _convert_to_type .datetime (.pstr s) = .error (.invalidData m)) ∧
    (parseIsoTime s = none →
      ∃ m, _convert_to_type .timeofday (.pstr s) = .error (.invalidData m)) ∧
    (parseIsoDateTime s = none →
      ∃ m, convert_to_type .date (.pstr s) = .error (.invalidData m)) ∧
    (parseIsoDateTime s = none →
      ∃ m, convert_to_type .datetime (.pstr s) = .error (.invalidData m)) ∧
    (parseIsoTime s = none → parseIsoDateTime s = none →
      ∃ m, convert_to_type .timeofday (.pstr s) = .error (.invalidData m)) := by
  refine ⟨?_, ?_, ?_, ?_, ?_, ?_⟩
  · intro h
    refine ⟨"Cannot convert " ++ s ++ " to date", ?_⟩
    simp [_convert_to_type, h]
  · intro h
    refine ⟨"Cannot convert " ++ s ++ " to datetime", ?_⟩
    simp [_convert_to_type, h]
  · intro h
    refine ⟨"Cannot convert " ++ s ++ " to time", ?_⟩
    simp [_convert_to_type, h]
  · intro h
    refine ⟨"Cannot convert " ++ s ++ " to date", ?_⟩
    simp [convert_to_type, pyTypeMatches, h]
  · intro h
    refine ⟨"Cannot convert " ++ s ++ " to datetime", ?_⟩
    simp [convert_to_type, pyTypeMatches, h]
  · intro h1 h2
    refine ⟨"Cannot convert " ++ s ++ " to time", ?_⟩
    simp [convert_to_type, pyTypeMatches, h1, h2]

/-- C6 witness: the string not-a-date parses under none of the three ISO
grammars, and its coercion to each date-family type raises
InvalidDataException in both conversion functions. -/
theorem spec_c6_witness :
    (∃ m, _convert_to_type .date (.pstr "not-a-date") = .error (.invalidData m)) ∧
    (∃ m, _convert_to_type .datetime (.pstr "not-a-date") = .error (.invalidData m)) ∧
    (∃ m, _convert_to_type .timeofday (.pstr "not-a-date") = .error (.invalidData m)) ∧
    (∃ m, convert_to_type .date (.pstr "not-a-date") = .error (.invalidData m)) ∧
    (∃ m, convert_to_type .datetime (.pstr "not-a-date") = .error (.invalidData m)) ∧
    (∃ m, convert_to_type .timeofday (.pstr "not-a-date") = .error (.invalidData m)) :=
  ⟨(spec_c6 "not-a-date").1 (by decide),
   (spec_c6 "not-a-date").2.1 (by decide),
   (spec_c6 "not-a-date").2.2.1 (by decide),
   (spec_c6 "not-a-date").2.2.2.1 (by decide),
   (spec_c6 "not-a-date").2.2.2.2.1 (by decide),
   (spec_c6 "not-a-date").2.2.2.2.2 (by decide) (by decide)⟩

/-- C7: check_valid_spec wraps re.compile in try/except TypeError only,
so a string expression that is not a compilable regular expression (such
as an unterminated group) raises re.error, which escapes as a different
exception instead of InvalidDataException; only non-string expressions
(where re.compile raises TypeError) are converted to
InvalidDataException.  This theorem evaluates the embedded
check_valid_spec at the failing input. -/
theorem spec_c7 :
    check_valid_spec (.regex_match "name" (.pstr "(")) = .error (.pyExc .reError) ∧
    check_valid_spec (.regex_match "name" .pnone) =
      .error (.invalidData "Expression is not a valid regular expression") ∧
    parseRegex "(" = none :=
  ⟨by decide, by decide, by decide⟩

/-- C5 witness: the unrecognized string nonsense coerces to False in
both conversion functions rather than raising. -/
theorem spec_c5_witness :
    _convert_to_type .boolean (.pstr "nonsense") = .ok (.pbool false) ∧
    convert_to_type .boolean (.pstr "nonsense") = .ok (.pbool false) := by
  have h := spec_c5 (.pstr "nonsense")
  exact ⟨h.2.2.2.2.1 "nonsense" rfl (by decide), h.2.2.2.2.2.2.1 "nonsense" rfl (by decide)⟩

/-- C8: all_values raises InvalidDataException on a column name that is
not in the schema, and on a well-typed column returns exactly the
distinct values of that column, without duplicates, sorted ascending in
the type order. -/
theorem spec_c8 (t : DataPlaneTable) (column_name : String) :
    (column_name ∉ column_names t →
      ∃ m, all_values t column_name = .error (.invalidData m)) ∧
    (∀ idx ty, (column_names t).findIdx? (fun n => n = column_name) = some idx →
      (t.schema.map Column.type).getD idx .string = ty →
      (∀ row ∈ t.rows, rowTyped ty (row.getD idx .pnone) = true) →
      ∃ res, all_values t column_name = .ok res ∧
        res.Pairwise (fun a b => pyLeB a b = true) ∧
        res.Nodup ∧
        (∀ v, v ∈ res ↔ ∃ row ∈ t.rows, row.getD idx .pnone = v)) := by
  constructor
  · intro hmem
    refine ⟨column_name ++ " is not a column of this table", ?_⟩
    simp [all_values, findIdx_eq_none_of_not_mem hmem]
  · intro idx ty hidx hty hrows
    have hvt : ∀ v ∈ t.rows.map (fun row => row.getD idx .pnone), rowTyped ty v = true := by
      intro v hv
      rcases List.mem_map.mp hv with ⟨row, hrow, rfl⟩
      exact hrows row hrow
    have hdt : ∀ v ∈ pyDedup (t.rows.map (fun row => row.getD idx .pnone)),
        rowTyped ty v = true := fun v hv => hvt v (pyDedup_subset _ hv)
    have hconv := rowTyped_convert_list_id ty hdt
    refine ⟨pySort (pyDedup (t.rows.map (fun row => row.getD idx .pnone))), ?_, ?_, ?_, ?_⟩
    · simp only [all_values, hidx, hty, hconv]
    · exact pySort_pairwise ty _ hdt
    · have hnd : (pyDedup (t.rows.map (fun row => row.getD idx .pnone))).Nodup := by
        refine List.Pairwise.imp ?_ (pyDedup_pairwise _)
        intro a b hab hEq
        subst hEq
        simp [pyEq_refl a] at hab
      exact ((pySort_perm _).nodup_iff).mpr hnd
    · intro v
      constructor
      · intro hv
        have hv2 := ((pySort_perm _).mem_iff).mp hv
        rcases List.mem_map.mp (pyDedup_subset _ hv2) with ⟨row, hrow, heq⟩
        exact ⟨row, hrow, heq⟩
      · rintro ⟨row, hrow, rfl⟩
        have hvmem : (row.getD idx .pnone) ∈ t.rows.map (fun row => row.getD idx .pnone) :=
          List.mem_map_of_mem _ hrow
        rcases pyDedup_cover _ hvmem with ⟨w, hw, hww⟩
        have heqw : row.getD idx .pnone = w :=
          (pyEq_typed_iff ty (hvt _ hvmem) (hdt _ hw)).mp hww
        rw [heqw]
        exact ((pySort_perm _).mem_iff).mpr hw

/-- C8 witness: the spec example of a number column with values 21, 24
and 20 yields the sorted distinct list 20, 21, 24. -/
theorem spec_c8_witness :
    (∃ res, all_values ⟨[⟨"age", .number⟩], [[.pint 21], [.pint 24], [.pint 20]]⟩ "age" =
        .ok res ∧
      res.Pairwise (fun a b => pyLeB a b = true) ∧ res.Nodup ∧
      (∀ v, v ∈ res ↔
        ∃ row ∈ [[PyValue.pint 21], [.pint 24], [.pint 20]], row.getD 0 .pnone = v)) ∧
    all_values ⟨[⟨"age", .number⟩], [[.pint 21], [.pint 24], [.pint 20]]⟩ "age" =
      .ok [.pint 20, .pint 21, .pint 24] :=
  ⟨(spec_c8 ⟨[⟨"age", .number⟩], [[.pint 21], [.pint 24], [.pint 20]]⟩ "age").2 0 .number
      (by decide) (by decide) (by decide),
   by decide⟩

/-- C9: with no filter specification get_filtered_rows returns all rows;
a None columns argument behaves exactly as the empty list (all columns);
with a nonempty request the result depends only on which schema names
were requested, not on their order, duplicates, or any requested names
absent from the schema; and the projection positions are the schema
positions in increasing (schema) order. -/
theorem spec_c9 (t : DataPlaneTable) :
    (get_filtered_rows t none none = .ok t.rows) ∧
    (∀ sp, get_filtered_rows t sp none = get_filtered_rows t sp (some [])) ∧
    (∀ sp cols cols2, cols ≠ [] → cols2 ≠ [] →
      (∀ n ∈ column_names t, (n ∈ cols ↔ n ∈ cols2)) →
      get_filtered_rows t sp (some cols) = get_filtered_rows t sp (some cols2)) ∧
    (∀ cols : List String, List.Pairwise (fun i j => i < j)
      ((List.range (column_names t).length).filter
        (fun i => cols.contains ((column_names t).getD i "")))) := by
  refine ⟨?_, ?_, ?_, ?_⟩
  · simp [get_filtered_rows, _filtered_rows]
  · intro sp; rfl
  · intro sp cols cols2 h1 h2 h3
    have hidx : ((List.range (column_names t).length).filter
        (fun i => cols.contains ((column_names t).getD i ""))) =
        ((List.range (column_names t).length).filter
          (fun i => cols2.contains ((column_names t).getD i ""))) := by
      apply List.filter_congr
      intro i hi
      rw [List.mem_range] at hi
      have hmem : (column_names t).getD i "" ∈ column_names t := by
        rw [List.getD_eq_get _ _ hi]
        exact List.get_mem _ _ _
      have h4 : ((column_names t).getD i "" ∈ cols) ↔
          ((column_names t).getD i "" ∈ cols2) := h3 _ hmem
      rw [← List.elem_iff, ← List.elem_iff] at h4
      rcases hb : cols.contains ((column_names t).getD i "") with _ | _ <;>
        rcases hb2 : cols2.contains ((column_names t).getD i "") with _ | _ <;>
        simp_all
    rcases hF : _filtered_rows t sp with e | rows <;>
      simp only [get_filtered_rows, Option.getD_some, hF, hidx]
    rw [if_neg h1, if_neg h2]
  · intro cols
    exact List.Pairwise.filter _ (List.pairwise_lt_range _)

/-- C9 witness: on a concrete two-column table, requesting the columns
in reverse order with an extra unknown name yields the same projection as
requesting them in schema order, and the entries come back in schema
order. -/
theorem spec_c9_witness :
    get_filtered_rows ⟨[⟨"name", .string⟩, ⟨"age", .number⟩],
        [[.pstr "Ted", .pint 21], [.pstr "Alice", .pint 24]]⟩ none
        (some ["age", "name"]) =
      get_filtered_rows ⟨[⟨"name", .string⟩, ⟨"age", .number⟩],
        [[.pstr "Ted", .pint 21], [.pstr "Alice", .pint 24]]⟩ none
        (some ["name", "age", "zzz"]) ∧
    get_filtered_rows ⟨[⟨"name", .string⟩, ⟨"age", .number⟩],
        [[.pstr "Ted", .pint 21], [.pstr "Alice", .pint 24]]⟩ none
        (some ["age", "name"]) =
      .ok [[.pstr "Ted", .pint 21], [.pstr "Alice", .pint 24]] :=
  ⟨(spec_c9 ⟨[⟨"name", .string⟩, ⟨"age", .number⟩],
      [[.pstr "Ted", .pint 21], [.pstr "Alice", .pint 24]]⟩).2.2.1 none
      ["age", "name"] ["name", "age", "zzz"] (by decide) (by decide) (by decide),
   by decide⟩

end DataPlane
